import Mathlib

/-!
Shallow embedding of the estimation-whist-scorer repository:
`src/lib/rules.ts` (pure rules engine) and the state-machine transition
functions of `src/App.tsx`.  JavaScript numbers are modelled as `Int`
(all values the program manipulates are integers), strings as `List Char`,
arrays as `List`.  `a % b` in JavaScript truncates toward zero, which is
`Int.tmod`.  Out-of-range array reads (which in the source only occur on
paths guarded away, or would produce `undefined`/`NaN`) are modelled as a
default value of `0`; every theorem is applied only at in-range indices.
-/

namespace Whist

/-- JavaScript `%` (remainder truncated toward zero), as used by
`getDealerIndex`, `getBiddingOrder` and `getFirstLeaderIndex`. -/
def jsRem (a b : Int) : Int := Int.tmod a b

/-- JavaScript array read `l[i]`: `none` when `i` is negative or past the
end (JS `undefined`). -/
def atIdx {α : Type} (l : List α) (i : Int) : Option α :=
  if i < 0 then none else l.get? i.toNat

/-- JavaScript array read defaulting to `0` (used where the source reads a
numeric entry at an index that is in range on every reachable path). -/
def bidAt (bids : List Int) (i : Int) : Int := (atIdx bids i).getD 0

/-- JavaScript in-place element write `l[i] = a` (no-op on a negative
index; the source never writes past the end of an array). -/
def listSet {α : Type} (l : List α) (i : Int) (a : α) : List α :=
  if i < 0 then l else l.set i.toNat a

/-- JavaScript `l.slice(0, k)`: a negative `k` counts from the end. -/
def jsSliceTo {α : Type} (l : List α) (k : Int) : List α :=
  if k < 0 then l.take ((l.length : Int) + k).toNat else l.take k.toNat

/-! ## `src/lib/rules.ts` -/

/-- `type SuitStart` as it occurs at runtime: the select control and
`normalizeSuitStart` also pass the value `'diamonds'` through. -/
inductive SuitStart : Type where
  | clubs
  | spades
  | diamonds
deriving DecidableEq, Repr, Inhabited

inductive Suit : Type where
  | C
  | D
  | H
  | S
  | NT
deriving DecidableEq, Repr, Inhabited

def SUIT_ORDER_CLUBS_START : List Suit := [.C, .D, .H, .S, .NT]

def SUIT_ORDER_SPADES_START : List Suit := [.S, .H, .D, .C, .NT]

def MIN_PLAYERS : Int := 2

def MAX_PLAYERS : Int := 8

def DECK_SIZE : Int := 52

/-- `clamp(value, min, max) = Math.max(min, Math.min(max, value))`. -/
def clamp (value minV maxV : Int) : Int := max minV (min maxV value)

def validateDeckConstraint (numberOfPlayers startingHandSize : Int) : Bool :=
  decide (numberOfPlayers * startingHandSize ≤ DECK_SIZE)

/-- First loop pushes `n, n-1, …, 1`; second pushes `2, …, n`. -/
def generateHandSequence (startingHandSize : Int) : List Int :=
  if startingHandSize < 1 then []
  else
    (List.range startingHandSize.toNat).map (fun (i : Nat) => startingHandSize - (i : Int))
      ++ (List.range (startingHandSize.toNat - 1)).map (fun (i : Nat) => 2 + (i : Int))

/-- The base order selected by `generateSuitCycle`: the check in the source
is `start === 'clubs' ? SUIT_ORDER_CLUBS_START : SUIT_ORDER_SPADES_START`,
so every non-clubs origin (including `'diamonds'`) selects the spades
order. -/
def generateSuitCycle (start : SuitStart) (roundCount : Int) : List Suit :=
  let baseOrder := if start = SuitStart.clubs then SUIT_ORDER_CLUBS_START else SUIT_ORDER_SPADES_START
  (List.range roundCount.toNat).map (fun round => baseOrder.getD (round % baseOrder.length) .NT)

def getDealerIndex (firstDealerIndex roundIndex numberOfPlayers : Int) : Int :=
  jsRem (firstDealerIndex + roundIndex) numberOfPlayers

/-- `for (offset = 1; offset <= numberOfPlayers; offset++) push((dealer + offset) % n)`. -/
def getBiddingOrder (dealerIndex numberOfPlayers : Int) : List Int :=
  (List.range numberOfPlayers.toNat).map
    (fun offset => jsRem (dealerIndex + ((offset : Int) + 1)) numberOfPlayers)

def getFirstLeaderIndex (dealerIndex numberOfPlayers : Int) : Int :=
  jsRem (dealerIndex + 1) numberOfPlayers

/-- `biddingOrder.slice(0, -1)` is `dropLast`. -/
def getForbiddenLastBidValue (bids : List Int) (handSize : Int)
    (biddingOrder : List Int) : Option Int :=
  if biddingOrder.isEmpty then none
  else
    let otherBidTotal :=
      biddingOrder.dropLast.foldl (fun total playerIndex => total + bidAt bids playerIndex) 0
    let forbiddenValue := handSize - otherBidTotal
    if 0 ≤ forbiddenValue ∧ forbiddenValue ≤ handSize then some forbiddenValue else none

def isBidAllowed (playerIndex value : Int) (bids : List Int) (handSize : Int)
    (biddingOrder : List Int) : Bool :=
  if value < 0 ∨ handSize < value then false
  else if biddingOrder.isEmpty then true
  else
    let lastBidderIndex := (atIdx biddingOrder ((biddingOrder.length : Int) - 1)).getD 0
    if playerIndex ≠ lastBidderIndex then true
    else
      match getForbiddenLastBidValue bids handSize biddingOrder with
      | none => true
      | some forbiddenValue => decide (value ≠ forbiddenValue)

def calculateRoundScore (bid tricksTaken : Int) : Int :=
  tricksTaken + (if bid = tricksTaken then 10 else 0)

def calculateRoundScores (bids tricksTaken : List Int) : List Int :=
  bids.mapIdx (fun index bid => calculateRoundScore bid (bidAt tricksTaken index))

def calculateTotals (previousTotals roundScores : List Int) : List Int :=
  roundScores.mapIdx (fun index roundScore => bidAt previousTotals index + roundScore)

/-! ## `src/types.ts` and the `src/App.tsx` state machine -/

/-- A player display name (JavaScript string as a list of characters). -/
abbrev Name : Type := List Char

/-- `String.prototype.trim()`: strip leading and trailing whitespace. -/
def trimName (name : Name) : Name :=
  ((name.dropWhile Char.isWhitespace).reverse.dropWhile Char.isWhitespace).reverse

structure Config : Type where
  numberOfPlayers : Int
  startingHandSize : Int
  suitStart : SuitStart
  playerNames : List Name
  firstDealerIndex : Int
deriving DecidableEq, Repr, Inhabited

structure RoundState : Type where
  roundIndex : Int
  handSize : Int
  suit : Suit
  dealerIndex : Int
  bids : List Int
  tricksTaken : List Int
  trickWinners : List Int
  roundScores : List Int
  totalsAfterRound : List Int
deriving DecidableEq, Repr, Inhabited

inductive Screen : Type where
  | config
  | bidding
  | playing
  | summary
deriving DecidableEq, Repr, Inhabited

structure UIState : Type where
  screen : Screen
  currentRoundIndex : Int
  currentBidTurn : Int
  currentTrick : Int
  currentLeaderIndex : Int
deriving DecidableEq, Repr, Inhabited

structure GameState : Type where
  config : Config
  rounds : List RoundState
  ui : UIState
deriving DecidableEq, Repr, Inhabited

/-- `while (names.length < count) names.push(''); return names.slice(0, count);` -/
def resizePlayerNames (existingNames : List Name) (count : Int) : List Name :=
  (existingNames ++ List.replicate (count.toNat - existingNames.length) ([] : Name)).take count.toNat

def normalizeSuitStart (value : SuitStart) : SuitStart :=
  if value = SuitStart.spades ∨ value = SuitStart.diamonds then value else SuitStart.clubs

def createDefaultUI : UIState :=
  { screen := .config, currentRoundIndex := 0, currentBidTurn := 0, currentTrick := 1,
    currentLeaderIndex := 0 }

def createInitialGameState (config : Config) : GameState :=
  { config, rounds := [], ui := createDefaultUI }

/-- `Math.max(1, Math.floor(DECK_SIZE / numberOfPlayers))`; `Int` division
by a positive divisor is floor division, and `sanitizeConfig` only calls
this with `numberOfPlayers` clamped into `[2, 8]`. -/
def getMaxStartingHand (numberOfPlayers : Int) : Int :=
  max 1 (DECK_SIZE / numberOfPlayers)

def sanitizeConfig (config : Config) : Config :=
  let numberOfPlayers := clamp config.numberOfPlayers MIN_PLAYERS MAX_PLAYERS
  let maxStartingHand := getMaxStartingHand numberOfPlayers
  let startingHandSize := clamp config.startingHandSize 1 maxStartingHand
  let playerNames := (resizePlayerNames config.playerNames numberOfPlayers).map trimName
  let firstDealerIndex := clamp config.firstDealerIndex 0 (numberOfPlayers - 1)
  { numberOfPlayers, startingHandSize, suitStart := normalizeSuitStart config.suitStart,
    playerNames, firstDealerIndex }

def createRounds (config : Config) : List RoundState :=
  let hands := generateHandSequence config.startingHandSize
  let roundCount := hands.length
  let suits := generateSuitCycle config.suitStart (roundCount : Int)
  hands.mapIdx (fun roundIndex handSize =>
    { roundIndex := (roundIndex : Int)
      handSize
      suit := suits.getD roundIndex .NT
      dealerIndex := getDealerIndex config.firstDealerIndex (roundIndex : Int) config.numberOfPlayers
      bids := List.replicate config.numberOfPlayers.toNat 0
      tricksTaken := List.replicate config.numberOfPlayers.toNat 0
      trickWinners := []
      roundScores := List.replicate config.numberOfPlayers.toNat 0
      totalsAfterRound := List.replicate config.numberOfPlayers.toNat 0 })

def startGame (s : GameState) : GameState :=
  let normalizedConfig := sanitizeConfig s.config
  let hasAllNames := normalizedConfig.playerNames.all (fun name => (trimName name).length > 0)
  if ¬hasAllNames ∨
      ¬validateDeckConstraint normalizedConfig.numberOfPlayers normalizedConfig.startingHandSize then
    s
  else
    let rounds := createRounds normalizedConfig
    match atIdx rounds 0 with
    | none => s
    | some firstRound =>
      { config := normalizedConfig, rounds,
        ui := { screen := .bidding, currentRoundIndex := 0, currentBidTurn := 0, currentTrick := 1,
                currentLeaderIndex :=
                  getFirstLeaderIndex firstRound.dealerIndex normalizedConfig.numberOfPlayers } }

def selectBidForCurrentPlayer (value : Int) (s : GameState) : GameState :=
  let roundIndex := s.ui.currentRoundIndex
  match atIdx s.rounds roundIndex with
  | none => s
  | some round =>
    if value < 0 ∨ round.handSize < value then s
    else
      let order := getBiddingOrder round.dealerIndex s.config.numberOfPlayers
      let bidTurn := clamp s.ui.currentBidTurn 0 (order.length : Int)
      match atIdx order bidTurn with
      | none => s
      | some playerIndex =>
        let lastPlayerIndex := atIdx order ((order.length : Int) - 1)
        let forbidden := getForbiddenLastBidValue round.bids round.handSize order
        if some playerIndex = lastPlayerIndex ∧ forbidden = some value then s
        else
          let nextBids := listSet round.bids playerIndex value
          let nextRounds := listSet s.rounds roundIndex { round with bids := nextBids }
          { s with rounds := nextRounds,
                   ui := { s.ui with currentBidTurn := clamp (bidTurn + 1) 0 (order.length : Int) } }

def beginPlaying (s : GameState) : GameState :=
  if s.ui.screen ≠ .bidding then s
  else
    match atIdx s.rounds s.ui.currentRoundIndex with
    | none => s
    | some round =>
      let order := getBiddingOrder round.dealerIndex s.config.numberOfPlayers
      let bidTurn := clamp s.ui.currentBidTurn 0 (order.length : Int)
      let lastPlayerIndex := atIdx order ((order.length : Int) - 1)
      let forbidden := getForbiddenLastBidValue round.bids round.handSize order
      let bidsAreComplete : Bool := decide ((order.length : Int) ≤ bidTurn)
      let lastBidValid : Bool :=
        match lastPlayerIndex with
        | none => true
        | some lastIndex =>
          match forbidden with
          | none => true
          | some forbiddenValue => decide (bidAt round.bids lastIndex ≠ forbiddenValue)
      if !bidsAreComplete || !lastBidValid then s
      else
        let nextRounds := listSet s.rounds s.ui.currentRoundIndex { round with trickWinners := [] }
        { s with rounds := nextRounds,
                 ui := { s.ui with screen := .playing, currentTrick := 1,
                                   currentLeaderIndex :=
                                     getFirstLeaderIndex round.dealerIndex s.config.numberOfPlayers } }

def recordTrickWinner (winnerIndex : Int) (s : GameState) : GameState :=
  let roundIndex := s.ui.currentRoundIndex
  match atIdx s.rounds roundIndex with
  | none => s
  | some round =>
    if winnerIndex < 0 ∨ s.config.numberOfPlayers ≤ winnerIndex then s
    else
      let nextTricksTaken := listSet round.tricksTaken winnerIndex (bidAt round.tricksTaken winnerIndex + 1)
      let nextTrickWinners := round.trickWinners ++ [winnerIndex]
      let roundCompleted := round.handSize ≤ s.ui.currentTrick
      if roundCompleted then
        let roundScores := calculateRoundScores round.bids nextTricksTaken
        let previousTotals :=
          if roundIndex = 0 then List.replicate s.config.numberOfPlayers.toNat 0
          else ((atIdx s.rounds (roundIndex - 1)).getD default).totalsAfterRound
        let totalsAfterRound := calculateTotals previousTotals roundScores
        { s with
            rounds := listSet s.rounds roundIndex
              { round with tricksTaken := nextTricksTaken, trickWinners := nextTrickWinners,
                           roundScores := roundScores, totalsAfterRound := totalsAfterRound },
            ui := { s.ui with screen := .summary, currentLeaderIndex := winnerIndex } }
      else
        { s with
            rounds := listSet s.rounds roundIndex
              { round with tricksTaken := nextTricksTaken, trickWinners := nextTrickWinners },
            ui := { s.ui with currentTrick := s.ui.currentTrick + 1,
                              currentLeaderIndex := winnerIndex } }

def undoGameAction (s : GameState) : GameState :=
  if s.ui.screen = .bidding then
    if s.ui.currentBidTurn ≤ 0 then s
    else { s with ui := { s.ui with currentBidTurn := s.ui.currentBidTurn - 1 } }
  else if s.ui.screen ≠ .playing ∧ s.ui.screen ≠ .summary then s
  else
    let roundIndex := s.ui.currentRoundIndex
    match atIdx s.rounds roundIndex with
    | none => s
    | some round =>
      if s.ui.screen = .playing ∧ round.trickWinners.isEmpty then
        let biddingOrder := getBiddingOrder round.dealerIndex s.config.numberOfPlayers
        let lastBidTurn := max 0 ((biddingOrder.length : Int) - 1)
        { s with ui := { s.ui with screen := .bidding, currentBidTurn := lastBidTurn,
                                   currentTrick := 1,
                                   currentLeaderIndex :=
                                     getFirstLeaderIndex round.dealerIndex s.config.numberOfPlayers } }
      else if round.trickWinners.isEmpty then s
      else
        match atIdx round.trickWinners ((round.trickWinners.length : Int) - 1) with
        | none => s
        | some undoneWinnerIndex =>
          let nextTricksTaken :=
            listSet round.tricksTaken undoneWinnerIndex
              (max 0 (bidAt round.tricksTaken undoneWinnerIndex - 1))
          let nextTrickWinners := jsSliceTo round.trickWinners (-1)
          let leaderBeforeUndoneTrick :=
            if nextTrickWinners.isEmpty then
              getFirstLeaderIndex round.dealerIndex s.config.numberOfPlayers
            else (atIdx nextTrickWinners ((nextTrickWinners.length : Int) - 1)).getD 0
          let zeroScores : List Int := List.replicate s.config.numberOfPlayers.toNat 0
          let previousTotals :=
            if roundIndex = 0 then zeroScores
            else ((atIdx s.rounds (roundIndex - 1)).getD default).totalsAfterRound
          let nextRounds := listSet s.rounds roundIndex
            { round with
                tricksTaken := nextTricksTaken,
                trickWinners := nextTrickWinners,
                roundScores := if s.ui.screen = .summary then zeroScores else round.roundScores,
                totalsAfterRound :=
                  if s.ui.screen = .summary then previousTotals else round.totalsAfterRound }
          { s with
              rounds := nextRounds,
              ui := { s.ui with screen := .playing,
                                currentTrick :=
                                  if s.ui.screen = .summary then round.handSize
                                  else max 1 (s.ui.currentTrick - 1),
                                currentLeaderIndex := leaderBeforeUndoneTrick } }

def moveToNextRound (s : GameState) : GameState :=
  let nextRoundIndex := s.ui.currentRoundIndex + 1
  match atIdx s.rounds nextRoundIndex with
  | none => s
  | some nextRound =>
    { s with ui := { screen := .bidding, currentRoundIndex := nextRoundIndex, currentBidTurn := 0,
                     currentTrick := 1,
                     currentLeaderIndex :=
                       getFirstLeaderIndex nextRound.dealerIndex s.config.numberOfPlayers } }

/-- The truncated round list `quitGame` computes before re-filling an empty
result: `none` models the source's early `return previousState`. -/
def quitGameRounds (s : GameState) : Option (List RoundState) :=
  let roundIndex := s.ui.currentRoundIndex
  match s.ui.screen with
  | .bidding => some (jsSliceTo s.rounds roundIndex)
  | .playing =>
    match atIdx s.rounds roundIndex with
    | none => none
    | some round =>
      let nextRounds := jsSliceTo s.rounds (roundIndex + 1)
      let roundScores := calculateRoundScores round.bids round.tricksTaken
      let previousTotals :=
        if roundIndex = 0 then List.replicate s.config.numberOfPlayers.toNat 0
        else ((atIdx nextRounds (roundIndex - 1)).getD default).totalsAfterRound
      let totalsAfterRound := calculateTotals previousTotals roundScores
      some (listSet nextRounds roundIndex { round with roundScores, totalsAfterRound })
  | .summary => some (jsSliceTo s.rounds (roundIndex + 1))
  | .config => none

/-- State update performed by `quitGame` (the `window.confirm` dialog of
`canQuitFromCurrentScreen` is presentation-layer and outside the model). -/
def quitGame (s : GameState) : GameState :=
  match quitGameRounds s with
  | none => s
  | some truncated =>
    let playerCount := s.config.numberOfPlayers
    let zeroTotals : List Int := List.replicate playerCount.toNat 0
    let nextRounds :=
      if truncated.isEmpty then
        let firstRound := atIdx s.rounds 0
        let firstSuit := (generateSuitCycle s.config.suitStart 1).getD 0 .NT
        [{ roundIndex := 0
           handSize := (firstRound.map (·.handSize)).getD s.config.startingHandSize
           suit := (firstRound.map (·.suit)).getD firstSuit
           dealerIndex := (firstRound.map (·.dealerIndex)).getD s.config.firstDealerIndex
           bids := List.replicate playerCount.toNat 0
           tricksTaken := List.replicate playerCount.toNat 0
           trickWinners := []
           roundScores := List.replicate playerCount.toNat 0
           totalsAfterRound := zeroTotals }]
      else truncated
    let finalRoundIndex := (nextRounds.length : Int) - 1
    let finalRound := (atIdx nextRounds finalRoundIndex).getD default
    { s with
        rounds := nextRounds,
        ui := { s.ui with screen := .summary, currentRoundIndex := finalRoundIndex,
                          currentBidTurn := 0, currentTrick := 1,
                          currentLeaderIndex :=
                            getFirstLeaderIndex finalRound.dealerIndex playerCount } }

def newGame (s : GameState) : GameState :=
  { config := sanitizeConfig s.config, rounds := [], ui := createDefaultUI }

/-! ## Reachability

One step of the state machine: each transition is applied from the screen
whose UI exposes it (`§4.4` of the design: start from the configuration
screen, bids from the bidding screen, trick recording from the playing
screen, next-round/new-game from the summary screen; the undo and quit
header controls are available on every screen and their handlers dispatch
on the screen themselves). -/
inductive Step : GameState → GameState → Prop where
  | start (s : GameState) : s.ui.screen = .config → Step s (startGame s)
  | selectBid (s : GameState) (value : Int) :
      s.ui.screen = .bidding → Step s (selectBidForCurrentPlayer value s)
  | beginPlay (s : GameState) : s.ui.screen = .bidding → Step s (beginPlaying s)
  | record (s : GameState) (winnerIndex : Int) :
      s.ui.screen = .playing → Step s (recordTrickWinner winnerIndex s)
  | undo (s : GameState) : Step s (undoGameAction s)
  | next (s : GameState) : s.ui.screen = .summary → Step s (moveToNextRound s)
  | quit (s : GameState) : Step s (quitGame s)
  | new (s : GameState) : s.ui.screen = .summary → Step s (newGame s)

/-- Reachable from a fresh start (`createInitialGameState` under any
configuration) through the state-machine operations. -/
def Reachable (s : GameState) : Prop :=
  ∃ c : Config, Relation.ReflTransGen Step (createInitialGameState c) s

/-! ## Helper lemmas -/

theorem atIdx_ofNat {α : Type} (l : List α) (i : Nat) : atIdx l (i : Int) = l.get? i := by
  unfold atIdx
  rw [if_neg (by omega), Int.toNat_ofNat]

theorem atIdx_eq_some {α : Type} {l : List α} {i : Int} {a : α} :
    atIdx l i = some a ↔ 0 ≤ i ∧ l.get? i.toNat = some a := by
  unfold atIdx
  split
  · rename_i h
    constructor
    · intro hc
      exact Option.noConfusion hc
    · intro hc
      omega
  · rename_i h
    simp only [iff_and_self]
    intro _
    omega

theorem rangeMap_getD {α : Type} (k : Nat) (f : Nat → α) (d : α) (i : Nat) (hi : i < k) :
    ((List.range k).map f).getD i d = f i := by
  rw [List.getD_eq_getElem?_getD, List.getElem?_map, List.getElem?_range hi]
  rfl

theorem rangeMap_get? {α : Type} (k : Nat) (f : Nat → α) (i : Nat) (hi : i < k) :
    ((List.range k).map f).get? i = some (f i) := by
  rw [List.get?_eq_getElem?, List.getElem?_map, List.getElem?_range hi]
  rfl

theorem foldl_add_map (f : Int → Int) : ∀ (l : List Int) (init : Int),
    l.foldl (fun total j => total + f j) init = init + (l.map f).sum := by
  intro l
  induction l with
  | nil => simp
  | cons x xs ih =>
    intro init
    simp only [List.foldl_cons, List.map_cons, List.sum_cons, ih]
    ring

/-- The source's `biddingOrder[biddingOrder.length - 1]` read is the last
element of a nonempty list. -/
theorem atIdx_last {α : Type} (l : List α) (h : l ≠ []) :
    atIdx l ((l.length : Int) - 1) = l.getLast? := by
  have hlen : 0 < l.length := List.length_pos.mpr h
  unfold atIdx
  rw [if_neg (by omega)]
  have : ((l.length : Int) - 1).toNat = l.length - 1 := by omega
  rw [this, List.get?_eq_getElem?, List.getLast?_eq_getElem?]

theorem getForbiddenLastBidValue_eq (bids : List Int) (handSize : Int) (order : List Int)
    (hne : order ≠ []) :
    getForbiddenLastBidValue bids handSize order =
      if 0 ≤ handSize - (order.dropLast.map (bidAt bids)).sum ∧
          handSize - (order.dropLast.map (bidAt bids)).sum ≤ handSize then
        some (handSize - (order.dropLast.map (bidAt bids)).sum)
      else none := by
  unfold getForbiddenLastBidValue
  rw [if_neg (by simpa [List.isEmpty_iff] using hne), foldl_add_map, Int.zero_add]

/-- C1: `isBidAllowed(p, v, bids, h, order)` returns true iff `0 ≤ v ≤ h`
and, when `p` is the last element of the bidding order, `v` differs from
the forbidden value `h` minus the sum of the bids of every bidder except
the last, that value counting as forbidden only when it lies in `[0, h]`;
with an empty bidding order no value is forbidden. -/
theorem isBidAllowed_spec (playerIndex value handSize : Int) (bids biddingOrder : List Int) :
    (isBidAllowed playerIndex value bids handSize biddingOrder = true ↔
      (0 ≤ value ∧ value ≤ handSize ∧
        ∀ lastBidder, biddingOrder.getLast? = some lastBidder → playerIndex = lastBidder →
          0 ≤ handSize - (biddingOrder.dropLast.map (bidAt bids)).sum →
          handSize - (biddingOrder.dropLast.map (bidAt bids)).sum ≤ handSize →
          value ≠ handSize - (biddingOrder.dropLast.map (bidAt bids)).sum)) ∧
      getForbiddenLastBidValue bids handSize [] = none := by
  refine ⟨?_, rfl⟩
  unfold isBidAllowed
  split
  · rename_i hv
    simp only [Bool.false_eq_true, false_iff, not_and]
    intro h1 h2
    omega
  · rename_i hv
    have hv0 : 0 ≤ value := by omega
    have hv1 : value ≤ handSize := by omega
    split
    · rename_i he
      have : biddingOrder = [] := by simpa [List.isEmpty_iff] using he
      subst this
      simp only [List.getLast?_nil, true_iff]
      exact ⟨hv0, hv1, fun lastBidder hlb => Option.noConfusion hlb⟩
    · rename_i he
      have hne : biddingOrder ≠ [] := by simpa [List.isEmpty_iff] using he
      have hlast : atIdx biddingOrder ((biddingOrder.length : Int) - 1) = biddingOrder.getLast? :=
        atIdx_last biddingOrder hne
      have hlast' : biddingOrder.getLast? = some (biddingOrder.getLast hne) :=
        List.getLast?_eq_getLast_of_ne_nil hne
      rw [hlast, hlast']
      simp only [Option.getD_some]
      split
      · rename_i hpl
        simp only [true_iff]
        refine ⟨hv0, hv1, fun lastBidder hlb hpeq => absurd ?_ hpl⟩
        exact hpeq.trans (Option.some.inj hlb).symm
      · rename_i hpl
        have hpeq : playerIndex = biddingOrder.getLast hne := by
          by_contra hc
          exact hpl hc
        rw [getForbiddenLastBidValue_eq bids handSize biddingOrder hne]
        by_cases hrange : 0 ≤ handSize - (biddingOrder.dropLast.map (bidAt bids)).sum ∧
            handSize - (biddingOrder.dropLast.map (bidAt bids)).sum ≤ handSize
        · rw [if_pos hrange]
          show (decide (value ≠ handSize - (biddingOrder.dropLast.map (bidAt bids)).sum) = true) ↔ _
          rw [decide_eq_true_eq]
          constructor
          · intro hv2
            exact ⟨hv0, hv1, fun lastBidder hlb hp h0 h1 => hv2⟩
          · intro hrhs
            exact hrhs.2.2 (biddingOrder.getLast hne) rfl hpeq hrange.1 hrange.2
        · rw [if_neg hrange]
          show (true = true) ↔ _
          simp only [true_iff]
          exact ⟨hv0, hv1, fun lastBidder hlb hp h0 h1 => absurd ⟨h0, h1⟩ hrange⟩

/-- Witness: the worked example of the design note, four players, bids
`[4,1,0,0]`, hand size 6, bidding order `[1,2,3,0]`. -/
theorem isBidAllowed_spec_witness :
    (isBidAllowed 0 5 [4, 1, 0, 0] 6 (getBiddingOrder 0 4) = true ↔
      (0 ≤ (5 : Int) ∧ (5 : Int) ≤ 6 ∧
        ∀ lastBidder, (getBiddingOrder 0 4).getLast? = some lastBidder → (0 : Int) = lastBidder →
          0 ≤ 6 - ((getBiddingOrder 0 4).dropLast.map (bidAt [4, 1, 0, 0])).sum →
          6 - ((getBiddingOrder 0 4).dropLast.map (bidAt [4, 1, 0, 0])).sum ≤ 6 →
          (5 : Int) ≠ 6 - ((getBiddingOrder 0 4).dropLast.map (bidAt [4, 1, 0, 0])).sum)) ∧
      getForbiddenLastBidValue [4, 1, 0, 0] 6 [] = none :=
  isBidAllowed_spec 0 5 6 [4, 1, 0, 0] (getBiddingOrder 0 4)

theorem generateHandSequence_length (n : Int) (hn : 1 ≤ n) :
    (generateHandSequence n).length = 2 * n.toNat - 1 := by
  unfold generateHandSequence
  rw [if_neg (by omega)]
  simp only [List.length_append, List.length_map, List.length_range]
  omega

theorem generateHandSequence_getD (n : Int) (hn : 1 ≤ n) (i : Nat) (hi : i < 2 * n.toNat - 1) :
    (generateHandSequence n).getD i 0 = if i < n.toNat then n - i else (i : Int) - n + 2 := by
  unfold generateHandSequence
  rw [if_neg (by omega)]
  by_cases hcase : i < n.toNat
  · rw [if_pos hcase, List.getD_append _ _ _ _ (by simpa using hcase), rangeMap_getD _ _ _ _ hcase]
  · rw [if_neg hcase]
    rw [List.getD_append_right _ _ _ _ (by simpa using hcase)]
    simp only [List.length_map, List.length_range]
    rw [rangeMap_getD _ _ _ _ (by omega)]
    have : (0 : Int) ≤ n := by omega
    push_cast [Int.toNat_of_nonneg this] at *
    omega

/-- C4 counterexample: for n = 2 (which satisfies n ≥ 1) the produced
sequence is [2, 1, 2]; it starts at 2, not at 1, refuting "starts and ends
at 1". -/
theorem generateHandSequence_two_starts_at_two :
    generateHandSequence 2 = [2, 1, 2] ∧ (generateHandSequence 2).getD 0 0 ≠ 1 := by decide

/-- C4 (amended): for every n ≥ 1, `generateHandSequence n` has length
2n−1, starts and ends at n (not 1), attains the value 1 at the middle
index n−1, is strictly decreasing up to the middle and strictly increasing
after it, and never exceeds its peak value n. -/
theorem generateHandSequence_unimodal (n : Int) (hn : 1 ≤ n) :
    ((generateHandSequence n).length : Int) = 2 * n - 1 ∧
    (generateHandSequence n).getD 0 0 = n ∧
    (generateHandSequence n).getD ((generateHandSequence n).length - 1) 0 = n ∧
    (generateHandSequence n).getD (n.toNat - 1) 0 = 1 ∧
    (∀ i : Nat, i + 1 < n.toNat →
      (generateHandSequence n).getD (i + 1) 0 < (generateHandSequence n).getD i 0) ∧
    (∀ i : Nat, n.toNat ≤ i + 1 → i + 1 < (generateHandSequence n).length →
      (generateHandSequence n).getD i 0 < (generateHandSequence n).getD (i + 1) 0) ∧
    (∀ i : Nat, i < (generateHandSequence n).length → (generateHandSequence n).getD i 0 ≤ n) := by
  have hn0 : (0 : Int) ≤ n := by omega
  have htn : (n.toNat : Int) = n := Int.toNat_of_nonneg hn0
  have hlen := generateHandSequence_length n hn
  have hf := generateHandSequence_getD n hn
  refine ⟨by omega, ?_, ?_, ?_, ?_, ?_, ?_⟩
  · rw [hf 0 (by omega), if_pos (by omega)]
    simp
  · rw [hlen]
    by_cases h1 : n.toNat = 1
    · rw [hf (2 * n.toNat - 1 - 1) (by omega), if_pos (by omega)]
      rw [h1]
      push_cast
      omega
    · rw [hf (2 * n.toNat - 1 - 1) (by omega), if_neg (by omega)]
      push_cast [htn] at *
      omega
  · rw [hf (n.toNat - 1) (by omega), if_pos (by omega)]
    push_cast [htn] at *
    omega
  · intro i hi
    rw [hf (i + 1) (by omega), hf i (by omega), if_pos (by omega), if_pos (by omega)]
    push_cast
    omega
  · intro i hge hi
    rw [hlen] at hi
    by_cases hmid : i < n.toNat
    · rw [hf i (by omega), hf (i + 1) (by omega), if_pos hmid, if_neg (by omega)]
      push_cast [htn] at *
      omega
    · rw [hf i (by omega), hf (i + 1) (by omega), if_neg hmid, if_neg (by omega)]
      push_cast
      omega
  · intro i hi
    rw [hlen] at hi
    by_cases hcase : i < n.toNat
    · rw [hf i (by omega), if_pos hcase]
      omega
    · rw [hf i (by omega), if_neg hcase]
      push_cast [htn] at *
      omega

/-- Witness for the amended C4 at n = 4 (sequence [4,3,2,1,2,3,4]). -/
theorem generateHandSequence_unimodal_witness :
    1 ≤ (4 : Int) ∧
    (((generateHandSequence 4).length : Int) = 2 * 4 - 1 ∧
      (generateHandSequence 4).getD 0 0 = 4 ∧
      (generateHandSequence 4).getD ((generateHandSequence 4).length - 1) 0 = 4 ∧
      (generateHandSequence 4).getD ((4 : Int).toNat - 1) 0 = 1 ∧
      (∀ i : Nat, i + 1 < (4 : Int).toNat →
        (generateHandSequence 4).getD (i + 1) 0 < (generateHandSequence 4).getD i 0) ∧
      (∀ i : Nat, (4 : Int).toNat ≤ i + 1 → i + 1 < (generateHandSequence 4).length →
        (generateHandSequence 4).getD i 0 < (generateHandSequence 4).getD (i + 1) 0) ∧
      (∀ i : Nat, i < (generateHandSequence 4).length → (generateHandSequence 4).getD i 0 ≤ 4)) :=
  ⟨by decide, generateHandSequence_unimodal 4 (by decide)⟩

/-- C10: `generateSuitCycle` distinguishes only the clubs origin:
`normalizeSuitStart` accepts `'diamonds'` as an origin, yet for every
count the diamonds cycle equals the spades cycle — as does the cycle of
every non-clubs origin, which is the spades base order S,H,D,C,NT repeated
— so a diamonds-first cycle is never generated. -/
theorem generateSuitCycle_diamonds_is_spades (count : Int) :
    normalizeSuitStart .diamonds = .diamonds ∧
    generateSuitCycle .diamonds count = generateSuitCycle .spades count ∧
    (∀ start, start ≠ SuitStart.clubs →
      generateSuitCycle start count = generateSuitCycle .spades count) ∧
    (∀ start, start ≠ SuitStart.clubs → ∀ i : Nat, i < count.toNat →
      (generateSuitCycle start count).getD i .NT = SUIT_ORDER_SPADES_START.getD (i % 5) .NT) ∧
    (∀ start, 0 < count → (generateSuitCycle start count).getD 0 .NT ≠ Suit.D) := by
  have horder : ∀ start, start ≠ SuitStart.clubs →
      generateSuitCycle start count = generateSuitCycle .spades count := by
    intro start hs
    cases start with
    | clubs => exact absurd rfl hs
    | spades => rfl
    | diamonds => rfl
  refine ⟨rfl, horder .diamonds (by decide), horder, ?_, ?_⟩
  · intro start hs i hi
    rw [horder start hs]
    unfold generateSuitCycle
    rw [rangeMap_getD _ _ _ _ hi]
    rfl
  · intro start hcount
    have h0 : 0 < count.toNat := by omega
    cases start with
    | clubs =>
      unfold generateSuitCycle
      rw [rangeMap_getD _ _ _ _ h0]
      decide
    | spades =>
      unfold generateSuitCycle
      rw [rangeMap_getD _ _ _ _ h0]
      decide
    | diamonds =>
      unfold generateSuitCycle
      rw [rangeMap_getD _ _ _ _ h0]
      decide

/-- Witness for C10 at count = 7, origin diamonds, index 5. -/
theorem generateSuitCycle_diamonds_is_spades_witness :
    generateSuitCycle .diamonds 7 = generateSuitCycle .spades 7 ∧
    (generateSuitCycle .diamonds 7).getD 5 .NT = SUIT_ORDER_SPADES_START.getD (5 % 5) .NT ∧
    (generateSuitCycle .diamonds 7).getD 0 .NT ≠ Suit.D :=
  ⟨(generateSuitCycle_diamonds_is_spades 7).2.1,
   (generateSuitCycle_diamonds_is_spades 7).2.2.2.1 .diamonds (by decide) 5 (by decide),
   (generateSuitCycle_diamonds_is_spades 7).2.2.2.2 .diamonds (by decide)⟩

theorem trimName_eq_rdropWhile (l : Name) :
    trimName l = List.rdropWhile Char.isWhitespace (l.dropWhile Char.isWhitespace) := rfl

theorem head?_dropWhile_not {α : Type} (p : α → Bool) (l : List α) (a : α)
    (h : (l.dropWhile p).head? = some a) : ¬ p a = true := by
  induction l with
  | nil => exact absurd h (by simp)
  | cons x xs ih =>
    by_cases hp : p x = true
    · rw [List.dropWhile_cons_of_pos hp] at h
      exact ih h
    · rw [List.dropWhile_cons_of_neg hp] at h
      cases h
      exact hp

theorem trimName_idem (l : Name) : trimName (trimName l) = trimName l := by
  rw [trimName_eq_rdropWhile, trimName_eq_rdropWhile]
  have hd : List.dropWhile Char.isWhitespace
      (List.rdropWhile Char.isWhitespace (l.dropWhile Char.isWhitespace)) =
      List.rdropWhile Char.isWhitespace (l.dropWhile Char.isWhitespace) := by
    cases hA : List.rdropWhile Char.isWhitespace (l.dropWhile Char.isWhitespace) with
    | nil => rfl
    | cons x xs =>
      obtain ⟨t, ht⟩ := List.rdropWhile_prefix Char.isWhitespace (l.dropWhile Char.isWhitespace)
      rw [hA] at ht
      have hm : (l.dropWhile Char.isWhitespace).head? = some x := by
        rw [← ht]
        rfl
      exact List.dropWhile_cons_of_neg (head?_dropWhile_not Char.isWhitespace l x hm)
  rw [hd, List.rdropWhile_idempotent]

theorem resizePlayerNames_length (names : List Name) (count : Int) :
    (resizePlayerNames names count).length = count.toNat := by
  unfold resizePlayerNames
  rw [List.length_take, List.length_append, List.length_replicate]
  omega

theorem resizePlayerNames_self (names : List Name) (count : Int)
    (h : names.length = count.toNat) :
    resizePlayerNames names count = names := by
  unfold resizePlayerNames
  rw [h, Nat.sub_self, List.replicate_zero, List.append_nil, ← h, List.take_length]

theorem clamp_lower (v lo hi : Int) : lo ≤ clamp v lo hi := le_max_left _ _

theorem clamp_upper (v lo hi : Int) (h : lo ≤ hi) : clamp v lo hi ≤ hi :=
  max_le h (min_le_left _ _)

theorem clamp_eq (v lo hi : Int) (h1 : lo ≤ v) (h2 : v ≤ hi) : clamp v lo hi = v := by
  unfold clamp
  rw [min_eq_right h2, max_eq_right h1]

theorem normalizeSuitStart_idem (s : SuitStart) :
    normalizeSuitStart (normalizeSuitStart s) = normalizeSuitStart s := by
  cases s <;> rfl

theorem one_le_getMaxStartingHand (n : Int) : 1 ≤ getMaxStartingHand n := le_max_left _ _

/-- `sanitizeConfig` written out as an explicit record. -/
theorem sanitizeConfig_eq (x : Config) :
    sanitizeConfig x =
      { numberOfPlayers := clamp x.numberOfPlayers MIN_PLAYERS MAX_PLAYERS,
        startingHandSize := clamp x.startingHandSize 1
          (getMaxStartingHand (clamp x.numberOfPlayers MIN_PLAYERS MAX_PLAYERS)),
        suitStart := normalizeSuitStart x.suitStart,
        playerNames := (resizePlayerNames x.playerNames
          (clamp x.numberOfPlayers MIN_PLAYERS MAX_PLAYERS)).map trimName,
        firstDealerIndex := clamp x.firstDealerIndex 0
          (clamp x.numberOfPlayers MIN_PLAYERS MAX_PLAYERS - 1) } := rfl

theorem one_le_deck_div (n : Int) (h2 : 2 ≤ n) (h8 : n ≤ 8) : 1 ≤ DECK_SIZE / n := by
  rw [Int.le_ediv_iff_mul_le (by omega)]
  unfold DECK_SIZE
  omega

theorem getMaxStartingHand_eq (n : Int) (h2 : 2 ≤ n) (h8 : n ≤ 8) :
    getMaxStartingHand n = DECK_SIZE / n := by
  unfold getMaxStartingHand
  exact max_eq_right (one_le_deck_div n h2 h8)

/-- C9: `sanitizeConfig` is idempotent, and its output always has a player
count in [2, 8], a starting hand size in [1, ⌊52 / players⌋], exactly one
name per player, and a first-dealer index in [0, players − 1]. -/
theorem sanitizeConfig_spec (c : Config) :
    sanitizeConfig (sanitizeConfig c) = sanitizeConfig c ∧
    MIN_PLAYERS ≤ (sanitizeConfig c).numberOfPlayers ∧
    (sanitizeConfig c).numberOfPlayers ≤ MAX_PLAYERS ∧
    1 ≤ (sanitizeConfig c).startingHandSize ∧
    (sanitizeConfig c).startingHandSize ≤ DECK_SIZE / (sanitizeConfig c).numberOfPlayers ∧
    (((sanitizeConfig c).playerNames.length : Int) = (sanitizeConfig c).numberOfPlayers) ∧
    0 ≤ (sanitizeConfig c).firstDealerIndex ∧
    (sanitizeConfig c).firstDealerIndex ≤ (sanitizeConfig c).numberOfPlayers - 1 := by
  rw [sanitizeConfig_eq c]
  set n := clamp c.numberOfPlayers MIN_PLAYERS MAX_PLAYERS with hn
  set h := clamp c.startingHandSize 1 (getMaxStartingHand n) with hh
  set names := (resizePlayerNames c.playerNames n).map trimName with hnames
  set f := clamp c.firstDealerIndex 0 (n - 1) with hf
  have hp2 : MIN_PLAYERS ≤ n := clamp_lower _ _ _
  have hp8 : n ≤ MAX_PLAYERS := clamp_upper _ _ _ (by decide)
  have hp2' : (2 : Int) ≤ n := hp2
  have hp8' : n ≤ 8 := hp8
  have hh1 : 1 ≤ h := clamp_lower _ _ _
  have hhmax : h ≤ getMaxStartingHand n := clamp_upper _ _ _ (one_le_getMaxStartingHand n)
  have hlen : names.length = n.toNat := by
    rw [hnames, List.length_map, resizePlayerNames_length]
  have hd0 : (0 : Int) ≤ f := clamp_lower _ _ _
  have hdn : f ≤ n - 1 := clamp_upper _ _ _ (by omega)
  refine ⟨?_, hp2, hp8, hh1, ?_, ?_, hd0, hdn⟩
  · rw [sanitizeConfig_eq]
    simp only
    have e1 : clamp n MIN_PLAYERS MAX_PLAYERS = n := clamp_eq _ _ _ hp2 hp8
    rw [e1]
    have e2 : clamp h 1 (getMaxStartingHand n) = h := clamp_eq _ _ _ hh1 hhmax
    have e3 : normalizeSuitStart (normalizeSuitStart c.suitStart) =
        normalizeSuitStart c.suitStart := normalizeSuitStart_idem c.suitStart
    have e4 : (resizePlayerNames names n).map trimName = names := by
      rw [resizePlayerNames_self _ _ hlen, hnames, List.map_map]
      have : trimName ∘ trimName = trimName := funext trimName_idem
      rw [this]
    have e5 : clamp f 0 (n - 1) = f := clamp_eq _ _ _ hd0 hdn
    rw [e2, e3, e4, e5]
  · simp only
    rwa [← getMaxStartingHand_eq _ hp2' hp8']
  · simp only
    rw [hlen]
    omega

theorem listSet_length {α : Type} (l : List α) (i : Int) (a : α) :
    (listSet l i a).length = l.length := by
  unfold listSet
  split
  · rfl
  · exact List.length_set l i.toNat a

theorem atIdx_listSet_self {α : Type} {l : List α} {i : Int} {b : α} (a : α)
    (h0 : 0 ≤ i) (hlt : i.toNat < l.length) (hb : b = a) :
    atIdx (listSet l i a) i = some b := by
  unfold listSet atIdx
  rw [if_neg (by omega), if_neg (by omega), List.get?_eq_getElem?,
    List.getElem?_set_eq_of_lt a hlt, hb]

theorem atIdx_listSet_ne {α : Type} (l : List α) (i j : Int) (a : α) (hne : i ≠ j) :
    atIdx (listSet l i a) j = atIdx l j := by
  unfold listSet atIdx
  by_cases hi : i < 0
  · rw [if_pos hi]
  · rw [if_neg hi]
    by_cases hj : j < 0
    · rw [if_pos hj, if_pos hj]
    · rw [if_neg hj, if_neg hj, List.get?_eq_getElem?, List.get?_eq_getElem?,
        List.getElem?_set_ne (by omega)]

theorem atIdx_some_bounds {α : Type} {l : List α} {i : Int} {a : α}
    (h : atIdx l i = some a) : 0 ≤ i ∧ i.toNat < l.length := by
  rw [atIdx_eq_some] at h
  obtain ⟨hlt, -⟩ := List.get?_eq_some.mp h.2
  exact ⟨h.1, hlt⟩

theorem bidAt_natCast (l : List Int) (i : Nat) : bidAt l (i : Int) = l.getD i 0 := by
  rw [bidAt, atIdx_ofNat, List.get?_eq_getElem?, List.getD_eq_getElem?_getD]

theorem mapIdx_length {α β : Type} (l : List α) (f : Nat → α → β) :
    (l.mapIdx f).length = l.length := List.length_mapIdx

theorem mapIdx_getD_int (l : List Int) (f : Nat → Int → Int) (i : Nat) (h : i < l.length) :
    (l.mapIdx f).getD i 0 = f i (l.getD i 0) := by
  have h' : i < (l.mapIdx f).length := by rw [mapIdx_length]; exact h
  rw [List.getD_eq_getElem _ _ h', List.getD_eq_getElem _ _ h]
  have := List.get_mapIdx l f i h h'
  simp only [List.get_eq_getElem] at this
  exact this

theorem calculateRoundScores_getD (bids tricks : List Int) (i : Nat) (h : i < bids.length) :
    (calculateRoundScores bids tricks).getD i 0 =
      tricks.getD i 0 + (if bids.getD i 0 = tricks.getD i 0 then 10 else 0) := by
  unfold calculateRoundScores
  rw [mapIdx_getD_int _ _ _ h]
  unfold calculateRoundScore
  rw [bidAt_natCast]

theorem calculateRoundScores_length (bids tricks : List Int) :
    (calculateRoundScores bids tricks).length = bids.length := mapIdx_length _ _

theorem calculateTotals_getD (prev scores : List Int) (i : Nat) (h : i < scores.length) :
    (calculateTotals prev scores).getD i 0 = prev.getD i 0 + scores.getD i 0 := by
  unfold calculateTotals
  rw [mapIdx_getD_int _ _ _ h, bidAt_natCast]

theorem calculateTotals_length (prev scores : List Int) :
    (calculateTotals prev scores).length = scores.length := mapIdx_length _ _

/-- The configuration used by concrete witness states: two players named
A and B, starting hand size 2, clubs origin, dealer 0. -/
def sampleConfig : Config :=
  { numberOfPlayers := 2, startingHandSize := 2, suitStart := .clubs,
    playerNames := [['A'], ['B']], firstDealerIndex := 0 }

/-- C8: every guarded transition whose precondition fails returns the
state unchanged (there is no exception path): `selectBidForCurrentPlayer`
with no current round, with a value outside [0, hand size], or with the
current (last) bidder choosing the forbidden value, and `moveToNextRound`
when no following round exists in the schedule. -/
theorem guarded_transitions_noop (s : GameState) (value : Int) :
    (atIdx s.rounds s.ui.currentRoundIndex = none → selectBidForCurrentPlayer value s = s) ∧
    (∀ round, atIdx s.rounds s.ui.currentRoundIndex = some round →
      (value < 0 ∨ round.handSize < value) → selectBidForCurrentPlayer value s = s) ∧
    (∀ round playerIndex, atIdx s.rounds s.ui.currentRoundIndex = some round →
      atIdx (getBiddingOrder round.dealerIndex s.config.numberOfPlayers)
        (clamp s.ui.currentBidTurn 0
          ((getBiddingOrder round.dealerIndex s.config.numberOfPlayers).length : Int)) =
        some playerIndex →
      some playerIndex =
        atIdx (getBiddingOrder round.dealerIndex s.config.numberOfPlayers)
          (((getBiddingOrder round.dealerIndex s.config.numberOfPlayers).length : Int) - 1) →
      getForbiddenLastBidValue round.bids round.handSize
        (getBiddingOrder round.dealerIndex s.config.numberOfPlayers) = some value →
      selectBidForCurrentPlayer value s = s) ∧
    (atIdx s.rounds (s.ui.currentRoundIndex + 1) = none → moveToNextRound s = s) := by
  refine ⟨?_, ?_, ?_, ?_⟩
  · intro h
    simp only [selectBidForCurrentPlayer]
    rw [h]
  · intro round hr hv
    simp only [selectBidForCurrentPlayer]
    rw [hr]
    simp only [if_pos hv]
  · intro round playerIndex hr hp hlast hforb
    simp only [selectBidForCurrentPlayer]
    rw [hr]
    by_cases hv : value < 0 ∨ round.handSize < value
    · simp only [if_pos hv]
    · simp only [if_neg hv]
      rw [hp, ← hlast, hforb]
      simp
  · intro h
    simp only [moveToNextRound]
    rw [h]

/-- Witness for C8: from the fresh sample state (no rounds yet), a bid
selection and a next-round request both leave the state unchanged. -/
theorem guarded_transitions_noop_witness :
    selectBidForCurrentPlayer 3 (createInitialGameState sampleConfig) =
      createInitialGameState sampleConfig ∧
    moveToNextRound (createInitialGameState sampleConfig) =
      createInitialGameState sampleConfig :=
  ⟨(guarded_transitions_noop (createInitialGameState sampleConfig) 3).1 rfl,
   (guarded_transitions_noop (createInitialGameState sampleConfig) 3).2.2.2 rfl⟩

/-! Concrete states used by witnesses and counterexamples: a full
two-player game played from the sample configuration (round 0 has hand
size 2, round 1 hand size 1, round 2 hand size 2; everyone bids 0 and
player 0 wins every trick). -/

def sInit : GameState := createInitialGameState sampleConfig

def sBid0 : GameState := startGame sInit

def sPlay0 : GameState :=
  beginPlaying (selectBidForCurrentPlayer 0 (selectBidForCurrentPlayer 0 sBid0))

def sPlay1 : GameState := recordTrickWinner 0 sPlay0

def sSum0 : GameState := recordTrickWinner 0 sPlay1

def sBidR1 : GameState := moveToNextRound sSum0

def sPlayR1 : GameState :=
  beginPlaying (selectBidForCurrentPlayer 0 (selectBidForCurrentPlayer 0 sBidR1))

/-- C2: recording a trick while the current trick number equals the
round's hand size — and only then — sets the round's scores to
`calculateRoundScores` of the bids and updated tricks (elementwise
`tricks + 10` on an exact bid, `tricks` otherwise), sets
`totalsAfterRound` to the elementwise sum of the previous round's totals
(zero vector for round 0) and those scores, and advances to the summary
screen; a non-final trick leaves scores, totals and screen untouched. -/
theorem recordTrickWinner_scoring (s : GameState) (w : Int) (round : RoundState)
    (hr : atIdx s.rounds s.ui.currentRoundIndex = some round)
    (hw0 : 0 ≤ w) (hwn : w < s.config.numberOfPlayers)
    (ht : s.ui.currentTrick ≤ round.handSize) :
    (s.ui.currentTrick = round.handSize →
      recordTrickWinner w s =
        { s with
            rounds := listSet s.rounds s.ui.currentRoundIndex
              { round with
                  tricksTaken := listSet round.tricksTaken w (bidAt round.tricksTaken w + 1),
                  trickWinners := round.trickWinners ++ [w],
                  roundScores := calculateRoundScores round.bids
                    (listSet round.tricksTaken w (bidAt round.tricksTaken w + 1)),
                  totalsAfterRound := calculateTotals
                    (if s.ui.currentRoundIndex = 0 then
                      List.replicate s.config.numberOfPlayers.toNat 0
                    else
                      ((atIdx s.rounds (s.ui.currentRoundIndex - 1)).getD default).totalsAfterRound)
                    (calculateRoundScores round.bids
                      (listSet round.tricksTaken w (bidAt round.tricksTaken w + 1))) },
            ui := { s.ui with screen := .summary, currentLeaderIndex := w } }) ∧
    (s.ui.currentTrick < round.handSize →
      recordTrickWinner w s =
        { s with
            rounds := listSet s.rounds s.ui.currentRoundIndex
              { round with
                  tricksTaken := listSet round.tricksTaken w (bidAt round.tricksTaken w + 1),
                  trickWinners := round.trickWinners ++ [w] },
            ui := { s.ui with currentTrick := s.ui.currentTrick + 1,
                              currentLeaderIndex := w } }) ∧
    (∀ bids nt : List Int, ∀ i : Nat, i < bids.length →
      (calculateRoundScores bids nt).getD i 0 =
        nt.getD i 0 + (if bids.getD i 0 = nt.getD i 0 then 10 else 0)) ∧
    (∀ prev scores : List Int, ∀ i : Nat, i < scores.length →
      (calculateTotals prev scores).getD i 0 = prev.getD i 0 + scores.getD i 0) := by
  have hguard : ¬(w < 0 ∨ s.config.numberOfPlayers ≤ w) := by omega
  refine ⟨?_, ?_, calculateRoundScores_getD, calculateTotals_getD⟩
  · intro heq
    simp only [recordTrickWinner]
    rw [hr]
    simp only [if_neg hguard]
    rw [if_pos (by omega : round.handSize ≤ s.ui.currentTrick)]
  · intro hlt
    simp only [recordTrickWinner]
    rw [hr]
    simp only [if_neg hguard]
    rw [if_neg (by omega : ¬round.handSize ≤ s.ui.currentTrick)]

/-- Witness for C2: the final (only) trick of round 1 of the sample game:
bids [0,0], player 0 takes the trick, so scores are [1, 10] and the totals
add to round 0's [2, 10] giving [3, 20], on the summary screen. -/
theorem recordTrickWinner_scoring_witness :
    recordTrickWinner 0 sPlayR1 =
      { config := sampleConfig,
        rounds :=
          [{ roundIndex := 0, handSize := 2, suit := .C, dealerIndex := 0, bids := [0, 0],
             tricksTaken := [2, 0], trickWinners := [0, 0], roundScores := [2, 10],
             totalsAfterRound := [2, 10] },
           { roundIndex := 1, handSize := 1, suit := .D, dealerIndex := 1, bids := [0, 0],
             tricksTaken := [1, 0], trickWinners := [0], roundScores := [1, 10],
             totalsAfterRound := [3, 20] },
           { roundIndex := 2, handSize := 2, suit := .H, dealerIndex := 0, bids := [0, 0],
             tricksTaken := [0, 0], trickWinners := [], roundScores := [0, 0],
             totalsAfterRound := [0, 0] }],
        ui := { screen := .summary, currentRoundIndex := 1, currentBidTurn := 2,
                currentTrick := 1, currentLeaderIndex := 0 } } :=
  ((recordTrickWinner_scoring sPlayR1 0
      { roundIndex := 1, handSize := 1, suit := .D, dealerIndex := 1, bids := [0, 0],
        tricksTaken := [0, 0], trickWinners := [], roundScores := [0, 0],
        totalsAfterRound := [0, 0] }
      (by decide) (by decide) (by decide) (by decide)).1 (by decide)).trans (by decide)

theorem jsRem_eq_emod (a b : Int) (ha : 0 ≤ a) : jsRem a b = a % b := by
  unfold jsRem
  obtain ⟨m, rfl⟩ := Int.eq_ofNat_of_zero_le ha
  cases b with
  | ofNat n => rfl
  | negSucc n => rfl

theorem sanitize_hand_lower (c : Config) : 1 ≤ (sanitizeConfig c).startingHandSize :=
  clamp_lower _ _ _

theorem sanitize_players_lower (c : Config) : 2 ≤ (sanitizeConfig c).numberOfPlayers :=
  clamp_lower _ _ _

theorem sanitize_dealer_lower (c : Config) : 0 ≤ (sanitizeConfig c).firstDealerIndex :=
  clamp_lower _ _ _

theorem mapIdx_getD_round (l : List Int) (f : Nat → Int → RoundState) (i : Nat)
    (h : i < l.length) :
    (l.mapIdx f).getD i default = f i (l.getD i 0) := by
  have h' : i < (l.mapIdx f).length := by rw [mapIdx_length]; exact h
  rw [List.getD_eq_getElem _ _ h', List.getD_eq_getElem _ _ h]
  have := List.get_mapIdx l f i h h'
  simp only [List.get_eq_getElem] at this
  exact this

/-- C3: the schedule built from a sanitized configuration has 2n−1 rounds
(n the starting hand size), hand sizes n, n−1, …, 1, 2, …, n, dealer
(firstDealerIndex + i) mod players for round i, suit equal to the fixed
five-element base order at index i mod 5, and all per-player arrays
initialized to zeros. -/
theorem createRounds_schedule (c0 : Config) (i : Nat)
    (hi : i < (createRounds (sanitizeConfig c0)).length) :
    (((createRounds (sanitizeConfig c0)).length : Int) =
      2 * (sanitizeConfig c0).startingHandSize - 1) ∧
    ((createRounds (sanitizeConfig c0)).getD i default).handSize =
      (if (i : Int) < (sanitizeConfig c0).startingHandSize then
        (sanitizeConfig c0).startingHandSize - i
      else (i : Int) - (sanitizeConfig c0).startingHandSize + 2) ∧
    ((createRounds (sanitizeConfig c0)).getD i default).dealerIndex =
      ((sanitizeConfig c0).firstDealerIndex + i) % (sanitizeConfig c0).numberOfPlayers ∧
    ((createRounds (sanitizeConfig c0)).getD i default).suit =
      (if (sanitizeConfig c0).suitStart = SuitStart.clubs then SUIT_ORDER_CLUBS_START
       else SUIT_ORDER_SPADES_START).getD (i % 5) .NT ∧
    ((createRounds (sanitizeConfig c0)).getD i default).roundIndex = (i : Int) ∧
    ((createRounds (sanitizeConfig c0)).getD i default).bids =
      List.replicate (sanitizeConfig c0).numberOfPlayers.toNat 0 ∧
    ((createRounds (sanitizeConfig c0)).getD i default).tricksTaken =
      List.replicate (sanitizeConfig c0).numberOfPlayers.toNat 0 ∧
    ((createRounds (sanitizeConfig c0)).getD i default).trickWinners = [] ∧
    ((createRounds (sanitizeConfig c0)).getD i default).roundScores =
      List.replicate (sanitizeConfig c0).numberOfPlayers.toNat 0 ∧
    ((createRounds (sanitizeConfig c0)).getD i default).totalsAfterRound =
      List.replicate (sanitizeConfig c0).numberOfPlayers.toNat 0 := by
  have hh := sanitize_hand_lower c0
  have hd := sanitize_dealer_lower c0
  have hn0 : (0 : Int) ≤ (sanitizeConfig c0).startingHandSize := by omega
  have htn : ((sanitizeConfig c0).startingHandSize.toNat : Int) =
      (sanitizeConfig c0).startingHandSize := Int.toNat_of_nonneg hn0
  have hlen : (createRounds (sanitizeConfig c0)).length =
      (generateHandSequence (sanitizeConfig c0).startingHandSize).length := mapIdx_length _ _
  have hlen' := generateHandSequence_length (sanitizeConfig c0).startingHandSize hh
  have hi' : i < (generateHandSequence (sanitizeConfig c0).startingHandSize).length := by
    rw [← hlen]
    exact hi
  have hround : (createRounds (sanitizeConfig c0)).getD i default =
      (fun (roundIndex : Nat) (handSize : Int) =>
        ({ roundIndex := (roundIndex : Int)
           handSize
           suit := (generateSuitCycle (sanitizeConfig c0).suitStart
             ((generateHandSequence (sanitizeConfig c0).startingHandSize).length : Int)).getD
             roundIndex .NT
           dealerIndex := getDealerIndex (sanitizeConfig c0).firstDealerIndex (roundIndex : Int)
             (sanitizeConfig c0).numberOfPlayers
           bids := List.replicate (sanitizeConfig c0).numberOfPlayers.toNat 0
           tricksTaken := List.replicate (sanitizeConfig c0).numberOfPlayers.toNat 0
           trickWinners := []
           roundScores := List.replicate (sanitizeConfig c0).numberOfPlayers.toNat 0
           totalsAfterRound := List.replicate (sanitizeConfig c0).numberOfPlayers.toNat 0 }
          : RoundState)) i
        ((generateHandSequence (sanitizeConfig c0).startingHandSize).getD i 0) :=
    mapIdx_getD_round _ _ i hi'
  have hsuit : (generateSuitCycle (sanitizeConfig c0).suitStart
      ((generateHandSequence (sanitizeConfig c0).startingHandSize).length : Int)).getD i .NT =
      (if (sanitizeConfig c0).suitStart = SuitStart.clubs then SUIT_ORDER_CLUBS_START
       else SUIT_ORDER_SPADES_START).getD (i % 5) .NT := by
    unfold generateSuitCycle
    rw [rangeMap_getD _ _ _ _ (by omega)]
    by_cases hs : (sanitizeConfig c0).suitStart = SuitStart.clubs
    · rw [if_pos hs]
      rfl
    · rw [if_neg hs]
      rfl
  have hhand : (generateHandSequence (sanitizeConfig c0).startingHandSize).getD i 0 =
      (if (i : Int) < (sanitizeConfig c0).startingHandSize then
        (sanitizeConfig c0).startingHandSize - i
      else (i : Int) - (sanitizeConfig c0).startingHandSize + 2) := by
    rw [generateHandSequence_getD _ hh i (by omega)]
    by_cases hcase : i < (sanitizeConfig c0).startingHandSize.toNat
    · rw [if_pos hcase, if_pos (by omega)]
    · rw [if_neg hcase, if_neg (by omega)]
  have hdealer : getDealerIndex (sanitizeConfig c0).firstDealerIndex (i : Int)
      (sanitizeConfig c0).numberOfPlayers =
      ((sanitizeConfig c0).firstDealerIndex + i) % (sanitizeConfig c0).numberOfPlayers := by
    unfold getDealerIndex
    exact jsRem_eq_emod _ _ (by omega)
  rw [hround]
  simp only
  refine ⟨by omega, hhand, hdealer, hsuit, ?_, ?_, ?_, ?_, ?_, ?_⟩ <;> trivial

/-- Witness for C3 at the sample configuration, round index 2 (hand size
should be ⌊2⌋ → the third entry of the sequence 2,1,2 which is 2). -/
theorem createRounds_schedule_witness :
    ((((createRounds (sanitizeConfig sampleConfig)).length : Int) =
      2 * (sanitizeConfig sampleConfig).startingHandSize - 1) ∧
    ((createRounds (sanitizeConfig sampleConfig)).getD 2 default).handSize =
      (if ((2 : Nat) : Int) < (sanitizeConfig sampleConfig).startingHandSize then
        (sanitizeConfig sampleConfig).startingHandSize - (2 : Nat)
      else ((2 : Nat) : Int) - (sanitizeConfig sampleConfig).startingHandSize + 2) ∧
    ((createRounds (sanitizeConfig sampleConfig)).getD 2 default).dealerIndex =
      ((sanitizeConfig sampleConfig).firstDealerIndex + (2 : Nat)) %
        (sanitizeConfig sampleConfig).numberOfPlayers ∧
    ((createRounds (sanitizeConfig sampleConfig)).getD 2 default).suit =
      (if (sanitizeConfig sampleConfig).suitStart = SuitStart.clubs then SUIT_ORDER_CLUBS_START
       else SUIT_ORDER_SPADES_START).getD (2 % 5) .NT ∧
    ((createRounds (sanitizeConfig sampleConfig)).getD 2 default).roundIndex = ((2 : Nat) : Int) ∧
    ((createRounds (sanitizeConfig sampleConfig)).getD 2 default).bids =
      List.replicate (sanitizeConfig sampleConfig).numberOfPlayers.toNat 0 ∧
    ((createRounds (sanitizeConfig sampleConfig)).getD 2 default).tricksTaken =
      List.replicate (sanitizeConfig sampleConfig).numberOfPlayers.toNat 0 ∧
    ((createRounds (sanitizeConfig sampleConfig)).getD 2 default).trickWinners = [] ∧
    ((createRounds (sanitizeConfig sampleConfig)).getD 2 default).roundScores =
      List.replicate (sanitizeConfig sampleConfig).numberOfPlayers.toNat 0 ∧
    ((createRounds (sanitizeConfig sampleConfig)).getD 2 default).totalsAfterRound =
      List.replicate (sanitizeConfig sampleConfig).numberOfPlayers.toNat 0) :=
  createRounds_schedule sampleConfig 2 (by decide)

theorem jsSliceTo_length_of_nonneg {α : Type} (l : List α) (k : Int) (hk : 0 ≤ k) :
    (jsSliceTo l k).length = min k.toNat l.length := by
  unfold jsSliceTo
  rw [if_neg (by omega)]
  exact List.length_take _ _

theorem atIdx_jsSliceTo {α : Type} (l : List α) (k j : Int) (hk : 0 ≤ k) (hj : j < k) :
    atIdx (jsSliceTo l k) j = atIdx l j := by
  unfold atIdx
  by_cases h0 : j < 0
  · rw [if_pos h0, if_pos h0]
  · rw [if_neg h0, if_neg h0]
    unfold jsSliceTo
    rw [if_neg (by omega : ¬k < 0), List.get?_eq_getElem?, List.get?_eq_getElem?,
      List.getElem?_take, if_pos (by omega)]

theorem ne_nil_of_length_pos {α : Type} {l : List α} (h : 0 < l.length) : ¬l.isEmpty = true := by
  rw [List.isEmpty_iff]
  intro hc
  rw [hc] at h
  exact absurd h (by simp)

/-- C7 counterexample: quitting from the bidding screen while round 0 is
current does not leave a round list that excludes the current round (that
list would be empty): the resulting list holds one fabricated round. -/
theorem quitGame_bidding_round0_cex :
    sBid0.ui.screen = .bidding ∧ sBid0.ui.currentRoundIndex = 0 ∧
    (quitGame sBid0).rounds.length = 1 ∧ jsSliceTo sBid0.rounds 0 = [] := by decide

/-- C7 (amended): quitting from the playing screen truncates the round
list at the current round r, sets that round's scores from the tricks
recorded so far and its totals to the previous round's totals (zero for
round 0) plus those scores, and shows summary at round r.  Quit from the
bidding screen with r ≥ 1 truncates the list to the first r rounds and
shows summary at round r−1; from the bidding screen at round 0 it instead
installs a single zero-initialized copy of round 0 (same hand size, suit
and dealer) and shows summary at round 0. -/
theorem quitGame_spec (s : GameState) (round : RoundState)
    (hr : atIdx s.rounds s.ui.currentRoundIndex = some round) :
    (s.ui.screen = .playing →
      quitGame s =
        { s with
            rounds := listSet (jsSliceTo s.rounds (s.ui.currentRoundIndex + 1))
              s.ui.currentRoundIndex
              { round with
                  roundScores := calculateRoundScores round.bids round.tricksTaken,
                  totalsAfterRound := calculateTotals
                    (if s.ui.currentRoundIndex = 0 then
                      List.replicate s.config.numberOfPlayers.toNat 0
                    else
                      ((atIdx (jsSliceTo s.rounds (s.ui.currentRoundIndex + 1))
                        (s.ui.currentRoundIndex - 1)).getD default).totalsAfterRound)
                    (calculateRoundScores round.bids round.tricksTaken) },
            ui := { s.ui with screen := .summary,
                              currentRoundIndex := s.ui.currentRoundIndex,
                              currentBidTurn := 0, currentTrick := 1,
                              currentLeaderIndex := getFirstLeaderIndex round.dealerIndex
                                s.config.numberOfPlayers } }) ∧
    (s.ui.screen = .bidding → 1 ≤ s.ui.currentRoundIndex →
      quitGame s =
        { s with
            rounds := jsSliceTo s.rounds s.ui.currentRoundIndex,
            ui := { s.ui with screen := .summary,
                              currentRoundIndex := s.ui.currentRoundIndex - 1,
                              currentBidTurn := 0, currentTrick := 1,
                              currentLeaderIndex := getFirstLeaderIndex
                                ((atIdx s.rounds (s.ui.currentRoundIndex - 1)).getD
                                  default).dealerIndex
                                s.config.numberOfPlayers } }) ∧
    (s.ui.screen = .bidding → s.ui.currentRoundIndex = 0 →
      quitGame s =
        { s with
            rounds := [{ roundIndex := 0, handSize := round.handSize, suit := round.suit,
                         dealerIndex := round.dealerIndex,
                         bids := List.replicate s.config.numberOfPlayers.toNat 0,
                         tricksTaken := List.replicate s.config.numberOfPlayers.toNat 0,
                         trickWinners := [],
                         roundScores := List.replicate s.config.numberOfPlayers.toNat 0,
                         totalsAfterRound := List.replicate s.config.numberOfPlayers.toNat 0 }],
            ui := { s.ui with screen := .summary, currentRoundIndex := 0,
                              currentBidTurn := 0, currentTrick := 1,
                              currentLeaderIndex := getFirstLeaderIndex round.dealerIndex
                                s.config.numberOfPlayers } }) := by
  obtain ⟨hr0, hrlt⟩ := atIdx_some_bounds hr
  refine ⟨?_, ?_, ?_⟩
  · intro hsc
    simp only [quitGame, quitGameRounds]
    rw [hsc]
    simp only
    rw [hr]
    simp only
    have hlen : (listSet (jsSliceTo s.rounds (s.ui.currentRoundIndex + 1))
        s.ui.currentRoundIndex
        { round with
            roundScores := calculateRoundScores round.bids round.tricksTaken,
            totalsAfterRound := calculateTotals
              (if s.ui.currentRoundIndex = 0 then
                List.replicate s.config.numberOfPlayers.toNat 0
              else
                ((atIdx (jsSliceTo s.rounds (s.ui.currentRoundIndex + 1))
                  (s.ui.currentRoundIndex - 1)).getD default).totalsAfterRound)
              (calculateRoundScores round.bids round.tricksTaken) }).length =
        s.ui.currentRoundIndex.toNat + 1 := by
      rw [listSet_length, jsSliceTo_length_of_nonneg _ _ (by omega)]
      omega
    rw [if_neg (ne_nil_of_length_pos (by rw [hlen]; omega))]
    rw [hlen]
    have hfinal : ((s.ui.currentRoundIndex.toNat + 1 : Nat) : Int) - 1 =
        s.ui.currentRoundIndex := by omega
    rw [hfinal]
    rw [atIdx_listSet_self _ (by omega) (by rw [jsSliceTo_length_of_nonneg _ _ (by omega)]; omega)
      rfl]
    rfl
  · intro hsc hr1
    simp only [quitGame, quitGameRounds]
    rw [hsc]
    simp only
    have hlen : (jsSliceTo s.rounds s.ui.currentRoundIndex).length =
        s.ui.currentRoundIndex.toNat := by
      rw [jsSliceTo_length_of_nonneg _ _ (by omega)]
      omega
    rw [if_neg (ne_nil_of_length_pos (by rw [hlen]; omega))]
    rw [hlen]
    have hfinal : ((s.ui.currentRoundIndex.toNat : Nat) : Int) - 1 =
        s.ui.currentRoundIndex - 1 := by omega
    rw [hfinal]
    rw [atIdx_jsSliceTo _ _ _ (by omega) (by omega)]
  · intro hsc hr0'
    simp only [quitGame, quitGameRounds]
    rw [hsc]
    simp only
    rw [hr0']
    have hslice : jsSliceTo s.rounds (0 : Int) = [] := by
      unfold jsSliceTo
      rw [if_neg (by omega)]
      rfl
    rw [hslice]
    have hfirst : atIdx s.rounds 0 = some round := by
      rw [← hr, hr0']
    rw [hfirst]
    simp [atIdx]

/-- Witness for C7: quitting the sample game one trick into round 0
scores the partial round ([1, 10] from bids [0,0], tricks [1,0]) and
lands on summary at round 0. -/
theorem quitGame_spec_witness :
    quitGame sPlay1 =
      { config := sampleConfig,
        rounds :=
          [{ roundIndex := 0, handSize := 2, suit := .C, dealerIndex := 0, bids := [0, 0],
             tricksTaken := [1, 0], trickWinners := [0], roundScores := [1, 10],
             totalsAfterRound := [1, 10] }],
        ui := { screen := .summary, currentRoundIndex := 0, currentBidTurn := 0,
                currentTrick := 1, currentLeaderIndex := 1 } } :=
  ((quitGame_spec sPlay1
      { roundIndex := 0, handSize := 2, suit := .C, dealerIndex := 0, bids := [0, 0],
        tricksTaken := [1, 0], trickWinners := [0], roundScores := [0, 0],
        totalsAfterRound := [0, 0] }
      (by decide)).1 (by decide)).trans (by decide)

theorem getD_listSet_self (l : List Int) (i : Int) (a : Int) (h0 : 0 ≤ i)
    (h : i.toNat < l.length) : (listSet l i a).getD i.toNat 0 = a := by
  unfold listSet
  rw [if_neg (by omega), List.getD_eq_getElem?_getD, List.getElem?_set_eq_of_lt a h]
  rfl

theorem getD_listSet_ne (l : List Int) (i : Int) (a : Int) (j : Nat) (hne : (j : Int) ≠ i) :
    (listSet l i a).getD j 0 = l.getD j 0 := by
  unfold listSet
  split
  · rfl
  · rw [List.getD_eq_getElem?_getD, List.getD_eq_getElem?_getD,
      List.getElem?_set_ne (by omega)]

theorem mem_listSet {α : Type} {x : α} {l : List α} {i : Int} {a : α}
    (h : x ∈ listSet l i a) : x ∈ l ∨ x = a := by
  unfold listSet at h
  split at h
  · exact Or.inl h
  · exact List.mem_or_eq_of_mem_set h

theorem listSet_listSet {α : Type} (l : List α) (i : Int) (a b : α) :
    listSet (listSet l i a) i b = listSet l i b := by
  unfold listSet
  split
  · rfl
  · exact List.set_set a b l i.toNat

theorem listSet_atIdx_self {α : Type} {l : List α} {i : Int} {a : α}
    (h : atIdx l i = some a) : listSet l i a = l := by
  rw [atIdx_eq_some] at h
  unfold listSet
  rw [if_neg (by omega)]
  obtain ⟨h0, hget⟩ := h
  apply List.ext_get?
  intro j
  rw [List.get?_set_of_lt']
  · split
    · rename_i hj
      rw [← hj, hget]
    · rfl
  · obtain ⟨hlt, -⟩ := List.get?_eq_some.mp hget
    exact hlt

theorem jsSliceTo_neg_one {α : Type} (l : List α) : jsSliceTo l (-1) = l.dropLast := by
  unfold jsSliceTo
  rw [if_pos (by omega), List.dropLast_eq_take]
  congr 1
  omega

theorem sum_listSet_int (l : List Int) (i : Nat) (h : i < l.length) (a : Int) :
    (l.set i a).sum = l.sum - l.getD i 0 + a := by
  induction l generalizing i with
  | nil => simp at h
  | cons x xs ih =>
    cases i with
    | zero =>
      simp only [List.set_cons_zero, List.sum_cons, List.getD_cons_zero]
      ring
    | succ j =>
      have hj : j < xs.length := by simpa using h
      simp only [List.set_cons_succ, List.sum_cons, List.getD_cons_succ, ih j hj]
      ring

theorem getD_replicate_zero (n : Nat) (i : Nat) : (List.replicate n (0 : Int)).getD i 0 = 0 := by
  rw [List.getD_eq_getElem?_getD]
  by_cases h : i < n
  · rw [List.getElem?_eq_getElem (by simpa using h)]
    simp [List.getElem_replicate]
  · rw [List.getElem?_eq_none (by simpa using h)]
    rfl

theorem sum_replicate_zero (n : Nat) : (List.replicate n (0 : Int)).sum = 0 := by
  induction n with
  | zero => rfl
  | succ m ih => simp [List.replicate_succ, ih]

/-! ## The inductive invariant of the state machine -/

/-- Per-round data invariant: the tricks-taken array has one entry per
player, the hand size is positive, at most `handSize` tricks are recorded,
every recorded winner is a valid player index, and each player's
tricks-taken entry counts their wins in the trick-winner history. -/
def RoundInv (nPlayers : Int) (r : RoundState) : Prop :=
  r.tricksTaken.length = nPlayers.toNat ∧
  1 ≤ r.handSize ∧
  (r.trickWinners.length : Int) ≤ r.handSize ∧
  (∀ w ∈ r.trickWinners, 0 ≤ w ∧ w < nPlayers) ∧
  (∀ i : Nat, i < r.tricksTaken.length →
    r.tricksTaken.getD i 0 = (r.trickWinners.count ((i : Nat) : Int) : Int))

/-- Global invariant preserved by every state-machine step. -/
def Inv (s : GameState) : Prop :=
  0 ≤ s.ui.currentRoundIndex ∧
  (∀ r ∈ s.rounds, RoundInv s.config.numberOfPlayers r) ∧
  (s.ui.screen ≠ .config → s.rounds ≠ []) ∧
  (s.rounds ≠ [] → 2 ≤ s.config.numberOfPlayers) ∧
  (s.ui.screen = .bidding → ∃ rd, atIdx s.rounds s.ui.currentRoundIndex = some rd ∧
    rd.trickWinners = [] ∧
    rd.roundScores = List.replicate s.config.numberOfPlayers.toNat 0) ∧
  (s.ui.screen = .playing → ∃ rd, atIdx s.rounds s.ui.currentRoundIndex = some rd ∧
    (rd.trickWinners.length : Int) + 1 ≤ s.ui.currentTrick ∧
    s.ui.currentTrick ≤ rd.handSize ∧
    rd.roundScores = List.replicate s.config.numberOfPlayers.toNat 0 ∧
    s.ui.currentLeaderIndex = (rd.trickWinners.getLast?).getD
      (getFirstLeaderIndex rd.dealerIndex s.config.numberOfPlayers)) ∧
  (∀ j : Int, s.ui.currentRoundIndex < j → ∀ rd, atIdx s.rounds j = some rd →
    rd.trickWinners = [] ∧
    rd.roundScores = List.replicate s.config.numberOfPlayers.toNat 0)

theorem generateHandSequence_mem (n x : Int) (hx : x ∈ generateHandSequence n) : 1 ≤ x := by
  unfold generateHandSequence at hx
  split at hx
  · exact absurd hx (by simp)
  · rename_i hn
    rw [List.mem_append] at hx
    rcases hx with hx | hx <;>
    · obtain ⟨i, hi, rfl⟩ := List.mem_map.mp hx
      rw [List.mem_range] at hi
      omega

/-- Every round produced by `createRounds` on a sanitized configuration is
freshly initialized and satisfies the per-round invariant. -/
theorem createRounds_elem (c0 : Config) (rd : RoundState)
    (h : rd ∈ createRounds (sanitizeConfig c0)) :
    RoundInv (sanitizeConfig c0).numberOfPlayers rd ∧
    rd.trickWinners = [] ∧
    rd.roundScores = List.replicate (sanitizeConfig c0).numberOfPlayers.toNat 0 := by
  obtain ⟨i, hi⟩ := List.mem_iff_get.mp h
  have hl : (createRounds (sanitizeConfig c0)).length =
      (generateHandSequence (sanitizeConfig c0).startingHandSize).length := mapIdx_length _ _
  have hlen : i.1 < (generateHandSequence (sanitizeConfig c0).startingHandSize).length := by
    have hi2 := i.2
    omega
  have hget : rd = (createRounds (sanitizeConfig c0)).getD i.1 default := by
    rw [List.getD_eq_getElem _ _ i.2, ← List.get_eq_getElem, hi]
  have hform : (createRounds (sanitizeConfig c0)).getD i.1 default =
      (fun (roundIndex : Nat) (handSize : Int) =>
        ({ roundIndex := (roundIndex : Int)
           handSize
           suit := (generateSuitCycle (sanitizeConfig c0).suitStart
             ((generateHandSequence (sanitizeConfig c0).startingHandSize).length : Int)).getD
             roundIndex .NT
           dealerIndex := getDealerIndex (sanitizeConfig c0).firstDealerIndex (roundIndex : Int)
             (sanitizeConfig c0).numberOfPlayers
           bids := List.replicate (sanitizeConfig c0).numberOfPlayers.toNat 0
           tricksTaken := List.replicate (sanitizeConfig c0).numberOfPlayers.toNat 0
           trickWinners := []
           roundScores := List.replicate (sanitizeConfig c0).numberOfPlayers.toNat 0
           totalsAfterRound := List.replicate (sanitizeConfig c0).numberOfPlayers.toNat 0 }
          : RoundState)) i.1
        ((generateHandSequence (sanitizeConfig c0).startingHandSize).getD i.1 0) :=
    mapIdx_getD_round _ _ i.1 hlen
  have hhand1 : 1 ≤ (generateHandSequence (sanitizeConfig c0).startingHandSize).getD i.1 0 := by
    apply generateHandSequence_mem (sanitizeConfig c0).startingHandSize
    rw [List.getD_eq_getElem _ _ hlen]
    exact List.getElem_mem _
  rw [hget, hform]
  refine ⟨⟨?_, ?_, ?_, ?_, ?_⟩, rfl, rfl⟩
  · exact List.length_replicate _ _
  · exact hhand1
  · simp only [List.length_nil, Nat.cast_zero]
    omega
  · intro w hw
    exact absurd hw (by simp)
  · intro j hj
    rw [getD_replicate_zero]
    rfl

/-- A tricks-taken array that counts a winner history sums to the length
of that history. -/
theorem tricks_sum_eq (tt winners : List Int)
    (hcount : ∀ i : Nat, i < tt.length →
      tt.getD i 0 = (winners.count ((i : Nat) : Int) : Int))
    (hmem : ∀ w ∈ winners, 0 ≤ w ∧ w < (tt.length : Int)) :
    tt.sum = (winners.length : Int) := by
  induction winners generalizing tt with
  | nil =>
    have hz : ∀ x ∈ tt, x = 0 := by
      intro x hx
      obtain ⟨i, hi⟩ := List.mem_iff_get.mp hx
      have := hcount i.1 i.2
      rw [List.getD_eq_getElem _ _ i.2, ← List.get_eq_getElem, hi] at this
      simpa using this
    simpa using List.sum_eq_zero hz
  | cons w ws ih =>
    obtain ⟨hw0, hwlt⟩ := hmem w (List.mem_cons_self w ws)
    have hu : w.toNat < tt.length := by omega
    have hcast : ((w.toNat : Nat) : Int) = w := by omega
    have hsum := sum_listSet_int tt w.toNat hu (tt.getD w.toNat 0 - 1)
    have hcount' : ∀ i : Nat, i < (tt.set w.toNat (tt.getD w.toNat 0 - 1)).length →
        (tt.set w.toNat (tt.getD w.toNat 0 - 1)).getD i 0 =
          (ws.count ((i : Nat) : Int) : Int) := by
      intro i hilen
      rw [List.length_set] at hilen
      by_cases hiw : i = w.toNat
      · subst hiw
        rw [List.getD_eq_getElem?_getD, List.getElem?_set_eq_of_lt _ hu, Option.getD_some,
          hcount _ hilen]
        have hcnt : (w :: ws).count ((w.toNat : Nat) : Int) =
            ws.count ((w.toNat : Nat) : Int) + 1 := by
          rw [List.count_cons, if_pos (by simp only [beq_iff_eq]; omega)]
        rw [hcnt]
        push_cast
        ring
      · rw [List.getD_eq_getElem?_getD, List.getElem?_set_ne (by omega),
          ← List.getD_eq_getElem?_getD, hcount i hilen]
        have hcnt : (w :: ws).count ((i : Nat) : Int) = ws.count ((i : Nat) : Int) := by
          rw [List.count_cons, if_neg (by simp only [beq_iff_eq]; omega)]
          omega
        rw [hcnt]
    have hmem' : ∀ v ∈ ws, 0 ≤ v ∧ v < ((tt.set w.toNat (tt.getD w.toNat 0 - 1)).length : Int) := by
      intro v hv
      rw [List.length_set]
      exact hmem v (List.mem_cons_of_mem w hv)
    have := ih _ hcount' hmem'
    rw [hsum] at this
    simp only [List.length_cons]
    push_cast
    omega

theorem atIdx_mem {α : Type} {l : List α} {i : Int} {a : α} (h : atIdx l i = some a) :
    a ∈ l := by
  rw [atIdx_eq_some] at h
  exact List.get?_mem h.2

theorem listSet_eq_nil_iff {α : Type} (l : List α) (i : Int) (a : α) :
    listSet l i a = [] ↔ l = [] := by
  constructor
  · intro h
    have := listSet_length l i a
    rw [h] at this
    exact List.length_eq_zero.mp this.symm
  · intro h
    subst h
    unfold listSet
    split
    · rfl
    · rfl

theorem Inv_initial (c : Config) : Inv (createInitialGameState c) := by
  refine ⟨by simp [createInitialGameState, createDefaultUI], ?_, ?_, ?_, ?_, ?_, ?_⟩
  · intro r hr
    exact absurd hr (by simp [createInitialGameState])
  · intro hscreen
    exact absurd rfl hscreen
  · intro hne
    exact absurd rfl hne
  · intro hscreen
    exact absurd hscreen (by simp [createInitialGameState, createDefaultUI])
  · intro hscreen
    exact absurd hscreen (by simp [createInitialGameState, createDefaultUI])
  · intro j hj rd hrd
    exact absurd hrd (by simp [createInitialGameState, atIdx])

theorem Inv_startGame (s : GameState) (hs : Inv s) : Inv (startGame s) := by
  unfold startGame
  dsimp only
  split
  · exact hs
  · rename_i hguard
    cases hfirst : atIdx (createRounds (sanitizeConfig s.config)) 0 with
    | none => exact hs
    | some firstRound =>
      obtain ⟨hb0, hblt⟩ := atIdx_some_bounds hfirst
      unfold Inv
      dsimp only
      refine ⟨by norm_num, ?_, ?_, ?_, ?_, ?_, ?_⟩
      · intro r hr
        exact (createRounds_elem s.config r hr).1
      · intro _
        intro hc
        rw [hc] at hblt
        exact absurd hblt (by simp)
      · intro _
        exact sanitize_players_lower s.config
      · intro _
        exact ⟨firstRound, hfirst, (createRounds_elem s.config firstRound (atIdx_mem hfirst)).2⟩
      · intro hcontra
        exact absurd hcontra (by decide)
      · intro j hj rd hrd
        exact (createRounds_elem s.config rd (atIdx_mem hrd)).2

theorem Inv_selectBid (s : GameState) (v : Int) (hsc : s.ui.screen = .bidding) (hs : Inv s) :
    Inv (selectBidForCurrentPlayer v s) := by
  obtain ⟨h1, h2, h3, h4, h5, h6, h7⟩ := hs
  unfold selectBidForCurrentPlayer
  dsimp only
  cases hr : atIdx s.rounds s.ui.currentRoundIndex with
  | none => exact ⟨h1, h2, h3, h4, h5, h6, h7⟩
  | some round =>
    dsimp only
    by_cases hv : v < 0 ∨ round.handSize < v
    · rw [if_pos hv]
      exact ⟨h1, h2, h3, h4, h5, h6, h7⟩
    · rw [if_neg hv]
      cases hp : atIdx (getBiddingOrder round.dealerIndex s.config.numberOfPlayers)
          (clamp s.ui.currentBidTurn 0
            ((getBiddingOrder round.dealerIndex s.config.numberOfPlayers).length : Int)) with
      | none => exact ⟨h1, h2, h3, h4, h5, h6, h7⟩
      | some playerIndex =>
        dsimp only
        by_cases hforb : some playerIndex =
            atIdx (getBiddingOrder round.dealerIndex s.config.numberOfPlayers)
              (((getBiddingOrder round.dealerIndex s.config.numberOfPlayers).length : Int) - 1) ∧
            getForbiddenLastBidValue round.bids round.handSize
              (getBiddingOrder round.dealerIndex s.config.numberOfPlayers) = some v
        · rw [if_pos hforb]
          exact ⟨h1, h2, h3, h4, h5, h6, h7⟩
        · rw [if_neg hforb]
          obtain ⟨hr0, hrlt⟩ := atIdx_some_bounds hr
          obtain ⟨rd, hrd, hwin, hscores⟩ := h5 hsc
          have hrdeq : rd = round := Option.some.inj (hrd.symm.trans hr)
          subst hrdeq
          unfold Inv
          dsimp only
          refine ⟨h1, ?_, ?_, ?_, ?_, ?_, ?_⟩
          · intro r hrm
            rcases mem_listSet hrm with hrm | hrm
            · exact h2 r hrm
            · subst hrm
              exact h2 rd (atIdx_mem hr)
          · intro _
            rw [Ne, listSet_eq_nil_iff]
            exact h3 (by rw [hsc]; intro hc; exact Screen.noConfusion hc)
          · intro hne
            rw [Ne, listSet_eq_nil_iff] at hne
            exact h4 hne
          · intro _
            refine ⟨_, atIdx_listSet_self _ hr0 hrlt rfl, hwin, hscores⟩
          · intro hcontra
            rw [hsc] at hcontra
            exact absurd hcontra (by decide)
          · intro j hj r hrj
            rw [atIdx_listSet_ne _ _ _ _ (by omega)] at hrj
            exact h7 j hj r hrj

theorem bidAt_nonneg (l : List Int) (i : Int) (h : 0 ≤ i) : bidAt l i = l.getD i.toNat 0 := by
  unfold bidAt atIdx
  rw [if_neg (by omega), List.get?_eq_getElem?, List.getD_eq_getElem?_getD]

theorem Inv_beginPlaying (s : GameState) (hs : Inv s) : Inv (beginPlaying s) := by
  obtain ⟨h1, h2, h3, h4, h5, h6, h7⟩ := hs
  unfold beginPlaying
  dsimp only
  by_cases hsc : s.ui.screen ≠ .bidding
  · rw [if_pos hsc]
    exact ⟨h1, h2, h3, h4, h5, h6, h7⟩
  · rw [if_neg hsc]
    have hscb : s.ui.screen = .bidding := not_ne_iff.mp hsc
    cases hr : atIdx s.rounds s.ui.currentRoundIndex with
    | none => exact ⟨h1, h2, h3, h4, h5, h6, h7⟩
    | some round =>
      dsimp only
      split
      · exact ⟨h1, h2, h3, h4, h5, h6, h7⟩
      · obtain ⟨hr0, hrlt⟩ := atIdx_some_bounds hr
        obtain ⟨rd, hrd, hwin, hscores⟩ := h5 hscb
        have hrdeq : rd = round := Option.some.inj (hrd.symm.trans hr)
        subst hrdeq
        obtain ⟨ha, hb, hc, hd, he⟩ := h2 rd (atIdx_mem hr)
        have hRI : RoundInv s.config.numberOfPlayers { rd with trickWinners := [] } := by
          refine ⟨ha, hb, ?_, ?_, ?_⟩
          · show (([] : List Int).length : Int) ≤ rd.handSize
            simp only [List.length_nil, Nat.cast_zero]
            omega
          · intro x hx
            exact absurd hx (by simp)
          · intro i hi
            show rd.tricksTaken.getD i 0 = (([] : List Int).count ((i : Nat) : Int) : Int)
            rw [he i hi, hwin]
        unfold Inv
        dsimp only
        refine ⟨h1, ?_, ?_, ?_, ?_, ?_, ?_⟩
        · intro r hrm
          rcases mem_listSet hrm with hrm | hrm
          · exact h2 r hrm
          · subst hrm
            exact hRI
        · intro _
          rw [Ne, listSet_eq_nil_iff]
          exact h3 (by rw [hscb]; intro hcon; exact Screen.noConfusion hcon)
        · intro hne
          rw [Ne, listSet_eq_nil_iff] at hne
          exact h4 hne
        · intro hcontra
          exact absurd hcontra (by decide)
        · intro _
          refine ⟨_, atIdx_listSet_self _ hr0 hrlt rfl, ?_, ?_, hscores, ?_⟩
          · show (([] : List Int).length : Int) + 1 ≤ 1
            simp
          · exact hb
          · rfl
        · intro j hj r hrj
          rw [atIdx_listSet_ne _ _ _ _ (by omega)] at hrj
          exact h7 j hj r hrj

theorem Inv_record (s : GameState) (w : Int) (hsc : s.ui.screen = .playing) (hs : Inv s) :
    Inv (recordTrickWinner w s) := by
  obtain ⟨h1, h2, h3, h4, h5, h6, h7⟩ := hs
  unfold recordTrickWinner
  dsimp only
  cases hr : atIdx s.rounds s.ui.currentRoundIndex with
  | none => exact ⟨h1, h2, h3, h4, h5, h6, h7⟩
  | some round =>
    dsimp only
    by_cases hwv : w < 0 ∨ s.config.numberOfPlayers ≤ w
    · rw [if_pos hwv]
      exact ⟨h1, h2, h3, h4, h5, h6, h7⟩
    · rw [if_neg hwv]
      obtain ⟨rd, hrd, hlen1, htle, hscoresP, hlead⟩ := h6 hsc
      have hrdeq : rd = round := Option.some.inj (hrd.symm.trans hr)
      subst hrdeq
      obtain ⟨ha, hb, hc, hd, he⟩ := h2 rd (atIdx_mem hr)
      obtain ⟨hr0, hrlt⟩ := atIdx_some_bounds hr
      have hw0 : 0 ≤ w := by omega
      have hwn : w < s.config.numberOfPlayers := by omega
      have hwlen : w.toNat < rd.tricksTaken.length := by
        rw [ha]
        omega
      have hbw : bidAt rd.tricksTaken w = rd.tricksTaken.getD w.toNat 0 := bidAt_nonneg _ _ hw0
      have hRI : ∀ r' : RoundState, r'.tricksTaken =
            listSet rd.tricksTaken w (bidAt rd.tricksTaken w + 1) →
          r'.handSize = rd.handSize → r'.trickWinners = rd.trickWinners ++ [w] →
          RoundInv s.config.numberOfPlayers r' := by
        intro r' ht' hh' hwin'
        refine ⟨?_, ?_, ?_, ?_, ?_⟩
        · rw [ht', listSet_length, ha]
        · rw [hh']
          exact hb
        · rw [hwin', hh', List.length_append]
          simp only [List.length_singleton]
          push_cast
          omega
        · intro x hx
          rw [hwin'] at hx
          rcases List.mem_append.mp hx with hx | hx
          · exact hd x hx
          · have : x = w := by simpa using hx
            subst this
            exact ⟨hw0, hwn⟩
        · intro i hi
          rw [ht', listSet_length] at hi
          rw [ht', hwin']
          by_cases hiw : i = w.toNat
          · subst hiw
            rw [getD_listSet_self _ _ _ hw0 hwlen, hbw, he _ hi, List.count_append]
            have h1w : [w].count ((w.toNat : Nat) : Int) = 1 := by
              rw [List.count_singleton', if_pos (by omega)]
            rw [h1w]
            push_cast
            ring
          · rw [getD_listSet_ne _ _ _ _ (by omega), he _ hi, List.count_append]
            have h0w : [w].count ((i : Nat) : Int) = 0 := by
              rw [List.count_singleton', if_neg (by omega)]
            rw [h0w]
            push_cast
            ring
      split
      · -- round completed: move to summary
        unfold Inv
        dsimp only
        refine ⟨h1, ?_, ?_, ?_, ?_, ?_, ?_⟩
        · intro r hrm
          rcases mem_listSet hrm with hrm | hrm
          · exact h2 r hrm
          · subst hrm
            exact hRI _ rfl rfl rfl
        · intro _
          rw [Ne, listSet_eq_nil_iff]
          exact h3 (by rw [hsc]; intro hcon; exact Screen.noConfusion hcon)
        · intro hne
          rw [Ne, listSet_eq_nil_iff] at hne
          exact h4 hne
        · intro hcontra
          exact absurd hcontra (by decide)
        · intro hcontra
          exact absurd hcontra (by decide)
        · intro j hj r hrj
          rw [atIdx_listSet_ne _ _ _ _ (by omega)] at hrj
          exact h7 j hj r hrj
      · -- trick recorded, still playing
        rename_i hnc
        unfold Inv
        dsimp only
        refine ⟨h1, ?_, ?_, ?_, ?_, ?_, ?_⟩
        · intro r hrm
          rcases mem_listSet hrm with hrm | hrm
          · exact h2 r hrm
          · subst hrm
            exact hRI _ rfl rfl rfl
        · intro _
          rw [Ne, listSet_eq_nil_iff]
          exact h3 (by rw [hsc]; intro hcon; exact Screen.noConfusion hcon)
        · intro hne
          rw [Ne, listSet_eq_nil_iff] at hne
          exact h4 hne
        · intro hcontra
          rw [hsc] at hcontra
          exact absurd hcontra (by decide)
        · intro _
          refine ⟨_, atIdx_listSet_self _ hr0 hrlt rfl, ?_, ?_, hscoresP, ?_⟩
          · show ((rd.trickWinners ++ [w]).length : Int) + 1 ≤ s.ui.currentTrick + 1
            simp only [List.length_append, List.length_singleton]
            push_cast
            omega
          · show s.ui.currentTrick + 1 ≤ rd.handSize
            omega
          · show w = ((rd.trickWinners ++ [w]).getLast?).getD _
            rw [List.getLast?_concat]
            rfl
        · intro j hj r hrj
          rw [atIdx_listSet_ne _ _ _ _ (by omega)] at hrj
          exact h7 j hj r hrj

theorem jsSliceTo_subset {α : Type} {x : α} {l : List α} {k : Int}
    (h : x ∈ jsSliceTo l k) : x ∈ l := by
  unfold jsSliceTo at h
  split at h
  · exact List.mem_of_mem_take h
  · exact List.mem_of_mem_take h

theorem jsSliceTo_nil {α : Type} (k : Int) : jsSliceTo ([] : List α) k = [] := by
  unfold jsSliceTo
  split
  · exact List.take_nil
  · exact List.take_nil

theorem Inv_next (s : GameState) (hs : Inv s) : Inv (moveToNextRound s) := by
  obtain ⟨h1, h2, h3, h4, h5, h6, h7⟩ := hs
  unfold moveToNextRound
  dsimp only
  cases hn : atIdx s.rounds (s.ui.currentRoundIndex + 1) with
  | none => exact ⟨h1, h2, h3, h4, h5, h6, h7⟩
  | some nextRound =>
    obtain ⟨hn0, hnlt⟩ := atIdx_some_bounds hn
    unfold Inv
    dsimp only
    refine ⟨by omega, h2, ?_, h4, ?_, ?_, ?_⟩
    · intro _
      intro hc
      rw [hc] at hnlt
      exact absurd hnlt (by simp)
    · intro _
      exact ⟨nextRound, hn, h7 _ (by omega) nextRound hn⟩
    · intro hcontra
      exact absurd hcontra (by decide)
    · intro j hj r hrj
      exact h7 j (by omega) r hrj

theorem Inv_newGame (s : GameState) (hs : Inv s) : Inv (newGame s) := by
  unfold newGame
  refine ⟨by simp [createDefaultUI], ?_, ?_, ?_, ?_, ?_, ?_⟩
  · intro r hr
    exact absurd hr (by simp)
  · intro hscreen
    exact absurd rfl hscreen
  · intro hne
    exact absurd rfl hne
  · intro hscreen
    exact absurd hscreen (by simp [createDefaultUI])
  · intro hscreen
    exact absurd hscreen (by simp [createDefaultUI])
  · intro j hj rd hrd
    exact absurd hrd (by simp [atIdx])

theorem Inv_undo (s : GameState) (hs : Inv s) : Inv (undoGameAction s) := by
  obtain ⟨h1, h2, h3, h4, h5, h6, h7⟩ := hs
  unfold undoGameAction
  dsimp only
  by_cases hb : s.ui.screen = .bidding
  · rw [if_pos hb]
    by_cases hbt : s.ui.currentBidTurn ≤ 0
    · rw [if_pos hbt]
      exact ⟨h1, h2, h3, h4, h5, h6, h7⟩
    · rw [if_neg hbt]
      refine ⟨h1, h2, h3, h4, ?_, ?_, h7⟩
      · intro _
        exact h5 hb
      · intro hcontra
        rw [hb] at hcontra
        exact absurd hcontra (by decide)
  · rw [if_neg hb]
    by_cases hps : s.ui.screen ≠ .playing ∧ s.ui.screen ≠ .summary
    · rw [if_pos hps]
      exact ⟨h1, h2, h3, h4, h5, h6, h7⟩
    · rw [if_neg hps]
      cases hr : atIdx s.rounds s.ui.currentRoundIndex with
      | none => exact ⟨h1, h2, h3, h4, h5, h6, h7⟩
      | some round =>
        dsimp only
        by_cases hply : s.ui.screen = .playing ∧ round.trickWinners.isEmpty = true
        · rw [if_pos hply]
          obtain ⟨hplay, hwinE⟩ := hply
          have hwin : round.trickWinners = [] := List.isEmpty_iff.mp hwinE
          obtain ⟨rd, hrd, _, _, hscoresZ, _⟩ := h6 hplay
          have hrdeq : rd = round := Option.some.inj (hrd.symm.trans hr)
          subst hrdeq
          refine ⟨h1, h2, ?_, h4, ?_, ?_, h7⟩
          · intro _
            exact h3 (by rw [hplay]; intro hcon; exact Screen.noConfusion hcon)
          · intro _
            exact ⟨rd, hr, hwin, hscoresZ⟩
          · intro hcontra
            exact Screen.noConfusion hcontra
        · rw [if_neg hply]
          by_cases hwinE : round.trickWinners.isEmpty = true
          · rw [if_pos hwinE]
            exact ⟨h1, h2, h3, h4, h5, h6, h7⟩
          · rw [if_neg hwinE]
            have hwinne : round.trickWinners ≠ [] := by
              intro hcon
              exact hwinE (by rw [hcon]; rfl)
            cases hu : atIdx round.trickWinners ((round.trickWinners.length : Int) - 1) with
            | none => exact ⟨h1, h2, h3, h4, h5, h6, h7⟩
            | some undoneWinnerIndex =>
              dsimp only
              obtain ⟨ha, hb', hc', hd', he'⟩ := h2 round (atIdx_mem hr)
              obtain ⟨hr0, hrlt⟩ := atIdx_some_bounds hr
              have hulast : round.trickWinners.getLast? = some undoneWinnerIndex := by
                rw [← atIdx_last _ hwinne]
                exact hu
              have hgetLast : round.trickWinners.getLast hwinne = undoneWinnerIndex := by
                have hgl := List.getLast?_eq_getLast_of_ne_nil hwinne
                rw [hulast] at hgl
                exact (Option.some.inj hgl).symm
              have hsplit : round.trickWinners.dropLast ++ [undoneWinnerIndex] =
                  round.trickWinners := by
                have hdl := List.dropLast_append_getLast hwinne
                rw [hgetLast] at hdl
                exact hdl
              have humem : undoneWinnerIndex ∈ round.trickWinners := by
                rw [← hsplit]
                exact List.mem_append_right _ (by simp)
              obtain ⟨hu0, hun⟩ := hd' _ humem
              have hulen : undoneWinnerIndex.toNat < round.tricksTaken.length := by
                rw [ha]
                omega
              have hbu : bidAt round.tricksTaken undoneWinnerIndex =
                  round.tricksTaken.getD undoneWinnerIndex.toNat 0 := bidAt_nonneg _ _ hu0
              have hlenpos : 0 < round.trickWinners.length := List.length_pos.mpr hwinne
              have hcast : ((undoneWinnerIndex.toNat : Nat) : Int) = undoneWinnerIndex := by
                omega
              have hcntu : round.tricksTaken.getD undoneWinnerIndex.toNat 0 =
                  (round.trickWinners.dropLast.count undoneWinnerIndex : Int) + 1 := by
                rw [he' _ hulen, hcast]
                conv_lhs => rw [← hsplit]
                rw [List.count_append, List.count_singleton', if_pos rfl]
                push_cast
                ring
              have hwins' : jsSliceTo round.trickWinners (-1) = round.trickWinners.dropLast :=
                jsSliceTo_neg_one _
              have hRI : ∀ r' : RoundState,
                  r'.tricksTaken = listSet round.tricksTaken undoneWinnerIndex
                    (max 0 (bidAt round.tricksTaken undoneWinnerIndex - 1)) →
                  r'.handSize = round.handSize →
                  r'.trickWinners = jsSliceTo round.trickWinners (-1) →
                  RoundInv s.config.numberOfPlayers r' := by
                intro r' ht' hh' hwin'
                rw [hwins'] at hwin'
                refine ⟨?_, ?_, ?_, ?_, ?_⟩
                · rw [ht', listSet_length, ha]
                · rw [hh']
                  exact hb'
                · rw [hwin', hh', List.length_dropLast]
                  push_cast
                  omega
                · intro x hx
                  rw [hwin'] at hx
                  refine hd' x ?_
                  rw [← hsplit]
                  exact List.mem_append_left _ hx
                · intro i hi
                  rw [ht', listSet_length] at hi
                  rw [ht', hwin']
                  by_cases hiu : i = undoneWinnerIndex.toNat
                  · subst hiu
                    rw [getD_listSet_self _ _ _ hu0 hulen, hbu, hcntu, hcast]
                    have hge := Int.natCast_nonneg (round.trickWinners.dropLast.count
                      undoneWinnerIndex)
                    omega
                  · rw [getD_listSet_ne _ _ _ _ (by omega), he' _ hi]
                    conv_lhs => rw [← hsplit]
                    rw [List.count_append, List.count_singleton', if_neg (by omega)]
                    omega
              have hscreen_or : s.ui.screen = .playing ∨ s.ui.screen = .summary := by
                by_cases hpl : s.ui.screen = .playing
                · exact Or.inl hpl
                · refine Or.inr ?_
                  by_contra hsum
                  exact hps ⟨hpl, hsum⟩
              unfold Inv
              dsimp only
              refine ⟨h1, ?_, ?_, ?_, ?_, ?_, ?_⟩
              · intro r hrm
                rcases mem_listSet hrm with hrm | hrm
                · exact h2 r hrm
                · subst hrm
                  exact hRI _ rfl rfl rfl
              · intro _
                rw [Ne, listSet_eq_nil_iff]
                refine h3 ?_
                rcases hscreen_or with hsc | hsc <;>
                · rw [hsc]
                  intro hcon
                  exact Screen.noConfusion hcon
              · intro hne
                rw [Ne, listSet_eq_nil_iff] at hne
                exact h4 hne
              · intro hcontra
                exact absurd hcontra (by decide)
              · intro _
                refine ⟨_, atIdx_listSet_self _ hr0 hrlt rfl, ?_, ?_, ?_, ?_⟩
                · show ((jsSliceTo round.trickWinners (-1)).length : Int) + 1 ≤ _
                  rw [hwins', List.length_dropLast]
                  rcases hscreen_or with hsc | hsc
                  · rw [if_neg (by rw [hsc]; intro hcon; exact Screen.noConfusion hcon)]
                    obtain ⟨rd2, hrd2, hl2, ht2, -, -⟩ := h6 hsc
                    have : rd2 = round := Option.some.inj (hrd2.symm.trans hr)
                    subst this
                    push_cast
                    omega
                  · rw [if_pos hsc]
                    push_cast
                    omega
                · show (if s.ui.screen = .summary then round.handSize
                      else max 1 (s.ui.currentTrick - 1)) ≤ round.handSize
                  rcases hscreen_or with hsc | hsc
                  · rw [if_neg (by rw [hsc]; intro hcon; exact Screen.noConfusion hcon)]
                    obtain ⟨rd2, hrd2, hl2, ht2, -, -⟩ := h6 hsc
                    have : rd2 = round := Option.some.inj (hrd2.symm.trans hr)
                    subst this
                    omega
                  · rw [if_pos hsc]
                · show (if s.ui.screen = .summary then
                      List.replicate s.config.numberOfPlayers.toNat 0
                    else round.roundScores) = List.replicate s.config.numberOfPlayers.toNat 0
                  rcases hscreen_or with hsc | hsc
                  · rw [if_neg (by rw [hsc]; intro hcon; exact Screen.noConfusion hcon)]
                    obtain ⟨rd2, hrd2, -, -, hsz, -⟩ := h6 hsc
                    have : rd2 = round := Option.some.inj (hrd2.symm.trans hr)
                    subst this
                    exact hsz
                  · rw [if_pos hsc]
                · show (if (jsSliceTo round.trickWinners (-1)).isEmpty = true then
                      getFirstLeaderIndex round.dealerIndex s.config.numberOfPlayers
                    else (atIdx (jsSliceTo round.trickWinners (-1))
                      (((jsSliceTo round.trickWinners (-1)).length : Int) - 1)).getD 0) =
                    ((jsSliceTo round.trickWinners (-1)).getLast?).getD
                      (getFirstLeaderIndex round.dealerIndex s.config.numberOfPlayers)
                  by_cases hemp : (jsSliceTo round.trickWinners (-1)).isEmpty = true
                  · rw [if_pos hemp, List.isEmpty_iff.mp hemp]
                    rfl
                  · rw [if_neg hemp]
                    have hne2 : jsSliceTo round.trickWinners (-1) ≠ [] := by
                      intro hcon
                      exact hemp (by rw [hcon]; rfl)
                    rw [atIdx_last _ hne2]
                    cases hgl : (jsSliceTo round.trickWinners (-1)).getLast? with
                    | none =>
                      exact absurd (List.getLast?_eq_none_iff.mp hgl) hne2
                    | some x => rfl
              · intro j hj r hrj
                rw [atIdx_listSet_ne _ _ _ _ (by omega)] at hrj
                exact h7 j hj r hrj

theorem Inv_quit (s : GameState) (hs : Inv s) : Inv (quitGame s) := by
  obtain ⟨h1, h2, h3, h4, h5, h6, h7⟩ := hs
  unfold quitGame quitGameRounds
  dsimp only
  cases hscreen : s.ui.screen with
  | config => exact ⟨h1, h2, h3, h4, h5, h6, h7⟩
  | bidding =>
    dsimp only
    have hrne : s.rounds ≠ [] := h3 (by rw [hscreen]; intro hcon; exact Screen.noConfusion hcon)
    have hn2 : 2 ≤ s.config.numberOfPlayers := h4 hrne
    by_cases hemp : (jsSliceTo s.rounds s.ui.currentRoundIndex).isEmpty = true
    · rw [if_pos hemp]
      cases hlist : s.rounds with
      | nil => exact absurd hlist hrne
      | cons rd0 rest =>
        have hfirst : atIdx (rd0 :: rest) 0 = some rd0 := rfl
        rw [hfirst]
        obtain ⟨ha0, hb0, hc0, hd0, he0⟩ := h2 rd0 (by rw [hlist]; exact List.mem_cons_self _ _)
        unfold Inv
        dsimp only
        refine ⟨by simp, ?_, ?_, ?_, ?_, ?_, ?_⟩
        · intro r hrm
          have hreq : r = _ := List.mem_singleton.mp hrm
          subst hreq
          refine ⟨List.length_replicate _ _, hb0, ?_, ?_, ?_⟩
          · show (([] : List Int).length : Int) ≤ rd0.handSize
            simp only [List.length_nil, Nat.cast_zero]
            omega
          · intro x hx
            exact absurd hx (by simp)
          · intro i hi
            show (List.replicate s.config.numberOfPlayers.toNat (0 : Int)).getD i 0 = _
            rw [getD_replicate_zero]
            rfl
        · intro _
          simp
        · intro _
          exact hn2
        · intro hcontra
          exact Screen.noConfusion hcontra
        · intro hcontra
          exact Screen.noConfusion hcontra
        · intro j hj r hrj
          obtain ⟨hj0, hjlt⟩ := atIdx_some_bounds hrj
          simp only [List.length_singleton] at hjlt hj
          omega
    · rw [if_neg hemp]
      have hne2 : jsSliceTo s.rounds s.ui.currentRoundIndex ≠ [] := by
        intro hcon
        exact hemp (by rw [hcon]; rfl)
      have hlpos : 0 < (jsSliceTo s.rounds s.ui.currentRoundIndex).length :=
        List.length_pos.mpr hne2
      unfold Inv
      dsimp only
      refine ⟨by omega, ?_, ?_, ?_, ?_, ?_, ?_⟩
      · intro r hrm
        exact h2 r (jsSliceTo_subset hrm)
      · intro _
        exact hne2
      · intro _
        exact hn2
      · intro hcontra
        exact Screen.noConfusion hcontra
      · intro hcontra
        exact Screen.noConfusion hcontra
      · intro j hj r hrj
        obtain ⟨hj0, hjlt⟩ := atIdx_some_bounds hrj
        omega
  | playing =>
    dsimp only
    cases hr : atIdx s.rounds s.ui.currentRoundIndex with
    | none => exact ⟨h1, h2, h3, h4, h5, h6, h7⟩
    | some round =>
      dsimp only
      obtain ⟨hr0, hrlt⟩ := atIdx_some_bounds hr
      have hrne : s.rounds ≠ [] := h3 (by rw [hscreen]; intro hcon; exact Screen.noConfusion hcon)
      have hn2 : 2 ≤ s.config.numberOfPlayers := h4 hrne
      have hslen : (jsSliceTo s.rounds (s.ui.currentRoundIndex + 1)).length =
          s.ui.currentRoundIndex.toNat + 1 := by
        rw [jsSliceTo_length_of_nonneg _ _ (by omega)]
        omega
      have hlen2 : (listSet (jsSliceTo s.rounds (s.ui.currentRoundIndex + 1))
          s.ui.currentRoundIndex
          { round with
              roundScores := calculateRoundScores round.bids round.tricksTaken,
              totalsAfterRound := calculateTotals
                (if s.ui.currentRoundIndex = 0 then
                  List.replicate s.config.numberOfPlayers.toNat 0
                else
                  ((atIdx (jsSliceTo s.rounds (s.ui.currentRoundIndex + 1))
                    (s.ui.currentRoundIndex - 1)).getD default).totalsAfterRound)
                (calculateRoundScores round.bids round.tricksTaken) }).length =
          s.ui.currentRoundIndex.toNat + 1 := by
        rw [listSet_length, hslen]
      rw [if_neg (ne_nil_of_length_pos (by rw [hlen2]; omega))]
      unfold Inv
      dsimp only
      refine ⟨by rw [hlen2]; omega, ?_, ?_, ?_, ?_, ?_, ?_⟩
      · intro r hrm
        rcases mem_listSet hrm with hrm | hrm
        · exact h2 r (jsSliceTo_subset hrm)
        · subst hrm
          exact h2 round (atIdx_mem hr)
      · intro _
        rw [Ne, listSet_eq_nil_iff]
        intro hcon
        have := List.length_eq_zero.mpr hcon
        rw [hslen] at this
        omega
      · intro _
        exact hn2
      · intro hcontra
        exact Screen.noConfusion hcontra
      · intro hcontra
        exact Screen.noConfusion hcontra
      · intro j hj r hrj
        obtain ⟨hj0, hjlt⟩ := atIdx_some_bounds hrj
        rw [listSet_length, hslen] at hjlt
        rw [hlen2] at hj
        omega
  | summary =>
    dsimp only
    have hrne : s.rounds ≠ [] := h3 (by rw [hscreen]; intro hcon; exact Screen.noConfusion hcon)
    have hn2 : 2 ≤ s.config.numberOfPlayers := h4 hrne
    have hlpos0 : 0 < s.rounds.length := List.length_pos.mpr hrne
    have hslen : (jsSliceTo s.rounds (s.ui.currentRoundIndex + 1)).length =
        min (s.ui.currentRoundIndex + 1).toNat s.rounds.length := by
      rw [jsSliceTo_length_of_nonneg _ _ (by omega)]
    rw [if_neg (ne_nil_of_length_pos (by rw [hslen]; omega))]
    unfold Inv
    dsimp only
    refine ⟨by rw [hslen]; omega, ?_, ?_, ?_, ?_, ?_, ?_⟩
    · intro r hrm
      exact h2 r (jsSliceTo_subset hrm)
    · intro _
      intro hcon
      have := List.length_eq_zero.mpr hcon
      rw [hslen] at this
      omega
    · intro _
      exact hn2
    · intro hcontra
      exact Screen.noConfusion hcontra
    · intro hcontra
      exact Screen.noConfusion hcontra
    · intro j hj r hrj
      obtain ⟨hj0, hjlt⟩ := atIdx_some_bounds hrj
      rw [hslen] at hjlt hj
      omega

theorem Inv_step {s s' : GameState} (h : Step s s') (hs : Inv s) : Inv s' := by
  cases h with
  | start hsc => exact Inv_startGame _ hs
  | selectBid v hsc => exact Inv_selectBid _ v hsc hs
  | beginPlay hsc => exact Inv_beginPlaying _ hs
  | record w hsc => exact Inv_record _ w hsc hs
  | undo => exact Inv_undo _ hs
  | next hsc => exact Inv_next _ hs
  | quit => exact Inv_quit _ hs
  | new hsc => exact Inv_newGame _ hs

theorem Inv_reachable {s : GameState} (h : Reachable s) : Inv s := by
  obtain ⟨c, hc⟩ := h
  induction hc with
  | refl => exact Inv_initial c
  | tail hab hstep ih => exact Inv_step hstep ih

theorem reachable_sBid0 : Reachable sBid0 :=
  ⟨sampleConfig, Relation.ReflTransGen.single (Step.start sInit (by decide))⟩

theorem reachable_sPlay0 : Reachable sPlay0 := by
  refine ⟨sampleConfig, ?_⟩
  refine Relation.ReflTransGen.tail (Relation.ReflTransGen.tail (Relation.ReflTransGen.tail
    (Relation.ReflTransGen.single (Step.start sInit (by decide)))
    (Step.selectBid sBid0 0 (by decide)))
    (Step.selectBid (selectBidForCurrentPlayer 0 sBid0) 0 (by decide)))
    (Step.beginPlay (selectBidForCurrentPlayer 0 (selectBidForCurrentPlayer 0 sBid0)) (by decide))

theorem reachable_sPlayR1 : Reachable sPlayR1 := by
  obtain ⟨c, hc⟩ := reachable_sPlay0
  refine ⟨c, ?_⟩
  refine Relation.ReflTransGen.tail (Relation.ReflTransGen.tail (Relation.ReflTransGen.tail
    (Relation.ReflTransGen.tail (Relation.ReflTransGen.tail (Relation.ReflTransGen.tail hc
      (Step.record sPlay0 0 (by decide)))
      (Step.record sPlay1 0 (by decide)))
      (Step.next sSum0 (by decide)))
      (Step.selectBid sBidR1 0 (by decide)))
      (Step.selectBid (selectBidForCurrentPlayer 0 sBidR1) 0 (by decide)))
    (Step.beginPlay (selectBidForCurrentPlayer 0 (selectBidForCurrentPlayer 0 sBidR1))
      (by decide))

/-- C6: in every reachable state, the current round's tricks-taken array
has one entry per player, entries in [0, hand size], and entry sum equal
to the number of tricks played so far (the trick-winner history length);
once all of the round's tricks are recorded the sum equals the hand
size. -/
theorem tricksTaken_invariant (s : GameState) (round : RoundState)
    (hreach : Reachable s)
    (hr : atIdx s.rounds s.ui.currentRoundIndex = some round) :
    (round.tricksTaken.length : Int) = s.config.numberOfPlayers ∧
    (∀ i : Nat, i < round.tricksTaken.length →
      0 ≤ round.tricksTaken.getD i 0 ∧ round.tricksTaken.getD i 0 ≤ round.handSize) ∧
    round.tricksTaken.sum = (round.trickWinners.length : Int) ∧
    (round.trickWinners.length = round.handSize.toNat →
      round.tricksTaken.sum = round.handSize) := by
  obtain ⟨h1, h2, h3, h4, h5, h6, h7⟩ := Inv_reachable hreach
  obtain ⟨ha, hb, hc, hd, he⟩ := h2 round (atIdx_mem hr)
  obtain ⟨hr0, hrlt⟩ := atIdx_some_bounds hr
  have hrne : s.rounds ≠ [] := by
    intro hcon
    rw [hcon] at hrlt
    exact absurd hrlt (by simp)
  have hn2 := h4 hrne
  have hsum : round.tricksTaken.sum = (round.trickWinners.length : Int) := by
    refine tricks_sum_eq _ _ he ?_
    intro w hw
    obtain ⟨hw0, hwn⟩ := hd w hw
    refine ⟨hw0, ?_⟩
    rw [ha]
    omega
  refine ⟨by rw [ha]; omega, ?_, hsum, ?_⟩
  · intro i hi
    rw [he i hi]
    constructor
    · exact Int.natCast_nonneg _
    · have hcle : round.trickWinners.count ((i : Nat) : Int) ≤ round.trickWinners.length :=
        List.count_le_length _ _
      omega
  · intro hfull
    rw [hsum, hfull]
    omega

/-- The freshly initialized round 0 of the sample game. -/
def round0Fresh : RoundState :=
  { roundIndex := 0, handSize := 2, suit := .C, dealerIndex := 0, bids := [0, 0],
    tricksTaken := [0, 0], trickWinners := [], roundScores := [0, 0],
    totalsAfterRound := [0, 0] }

/-- Witness for C6 at the freshly begun round 0 of the sample game (no
tricks recorded yet, all entries zero). -/
theorem tricksTaken_invariant_witness :
    ((round0Fresh.tricksTaken.length : Int) = sPlay0.config.numberOfPlayers) ∧
    (∀ i : Nat, i < round0Fresh.tricksTaken.length →
      0 ≤ round0Fresh.tricksTaken.getD i 0 ∧
      round0Fresh.tricksTaken.getD i 0 ≤ round0Fresh.handSize) ∧
    round0Fresh.tricksTaken.sum = (round0Fresh.trickWinners.length : Int) ∧
    (round0Fresh.trickWinners.length = round0Fresh.handSize.toNat →
      round0Fresh.tricksTaken.sum = round0Fresh.handSize) :=
  tricksTaken_invariant sPlay0 round0Fresh reachable_sPlay0 (by decide)

theorem atIdx_getD_of_lt {α : Type} (l : List α) (i : Int) (d : α) (h0 : 0 ≤ i)
    (hlt : i.toNat < l.length) : atIdx l i = some (l.getD i.toNat d) := by
  unfold atIdx
  rw [if_neg (by omega), List.get?_eq_getElem?, List.getElem?_eq_getElem hlt,
    List.getD_eq_getElem _ _ hlt]

/-- Undoing a just-recorded trick restores the previous state, given the
shape facts that hold in every reachable playing-screen state plus, when
the trick completes the round, that the round's scores are still zero and
its totals equal the previous round's totals. -/
theorem undo_record_eq (s : GameState) (w : Int) (round : RoundState)
    (hsc : s.ui.screen = .playing)
    (hr : atIdx s.rounds s.ui.currentRoundIndex = some round)
    (hw0 : 0 ≤ w) (hwn : w < s.config.numberOfPlayers)
    (hwlen : w.toNat < round.tricksTaken.length)
    (hpos : 0 ≤ round.tricksTaken.getD w.toNat 0)
    (ht1 : 1 ≤ s.ui.currentTrick)
    (hleader : s.ui.currentLeaderIndex = (round.trickWinners.getLast?).getD
      (getFirstLeaderIndex round.dealerIndex s.config.numberOfPlayers))
    (hcomplete : round.handSize ≤ s.ui.currentTrick →
      s.ui.currentTrick = round.handSize ∧
      round.roundScores = List.replicate s.config.numberOfPlayers.toNat 0 ∧
      round.totalsAfterRound = (if s.ui.currentRoundIndex = 0 then
        List.replicate s.config.numberOfPlayers.toNat 0
      else ((atIdx s.rounds (s.ui.currentRoundIndex - 1)).getD default).totalsAfterRound)) :
    undoGameAction (recordTrickWinner w s) = s := by
  obtain ⟨hr0, hrlt⟩ := atIdx_some_bounds hr
  have hguard : ¬(w < 0 ∨ s.config.numberOfPlayers ≤ w) := by omega
  have hbw : bidAt round.tricksTaken w = round.tricksTaken.getD w.toNat 0 :=
    bidAt_nonneg _ _ hw0
  have hnwne : round.trickWinners ++ [w] ≠ [] := by simp
  have hnwlast : atIdx (round.trickWinners ++ [w])
      (((round.trickWinners ++ [w]).length : Int) - 1) = some w := by
    rw [atIdx_last _ hnwne, List.getLast?_concat]
  have hnwemp : ¬(round.trickWinners ++ [w]).isEmpty = true := by simp
  have htrickRestore :
      listSet (listSet round.tricksTaken w (bidAt round.tricksTaken w + 1)) w
        (max 0 (bidAt (listSet round.tricksTaken w (bidAt round.tricksTaken w + 1)) w - 1)) =
      round.tricksTaken := by
    have hbw2 : bidAt (listSet round.tricksTaken w (bidAt round.tricksTaken w + 1)) w =
        round.tricksTaken.getD w.toNat 0 + 1 := by
      rw [bidAt_nonneg _ _ hw0, getD_listSet_self _ _ _ hw0 hwlen, hbw]
    rw [hbw2]
    have hmax : max 0 (round.tricksTaken.getD w.toNat 0 + 1 - 1) =
        round.tricksTaken.getD w.toNat 0 := by omega
    rw [hmax, listSet_listSet, listSet_atIdx_self (atIdx_getD_of_lt _ _ 0 hw0 hwlen)]
  have hwinsRestore : jsSliceTo (round.trickWinners ++ [w]) (-1) = round.trickWinners := by
    rw [jsSliceTo_neg_one, List.dropLast_concat]
  have hleadB :
      (if round.trickWinners.isEmpty = true then
        getFirstLeaderIndex round.dealerIndex s.config.numberOfPlayers
      else (atIdx round.trickWinners ((round.trickWinners.length : Int) - 1)).getD 0) =
      s.ui.currentLeaderIndex := by
    rw [hleader]
    by_cases hne : round.trickWinners = []
    · rw [hne]
      rfl
    · have hniE := ne_nil_of_length_pos (List.length_pos.mpr hne)
      rw [if_neg hniE, atIdx_last _ hne]
      cases hgl : round.trickWinners.getLast? with
      | none => exact absurd (List.getLast?_eq_none_iff.mp hgl) hne
      | some x => rfl
  have hetaR :
      ({ roundIndex := round.roundIndex
         handSize := round.handSize
         suit := round.suit
         dealerIndex := round.dealerIndex
         bids := round.bids
         tricksTaken := round.tricksTaken
         trickWinners := round.trickWinners
         roundScores := round.roundScores
         totalsAfterRound := round.totalsAfterRound } : RoundState) = round := rfl
  by_cases hcomp : round.handSize ≤ s.ui.currentTrick
  · -- the recorded trick completes the round
    obtain ⟨hteq, hscores0, htot⟩ := hcomplete hcomp
    have hrec : recordTrickWinner w s =
        { s with
            rounds := listSet s.rounds s.ui.currentRoundIndex
              { round with
                  tricksTaken := listSet round.tricksTaken w (bidAt round.tricksTaken w + 1),
                  trickWinners := round.trickWinners ++ [w],
                  roundScores := calculateRoundScores round.bids
                    (listSet round.tricksTaken w (bidAt round.tricksTaken w + 1)),
                  totalsAfterRound := calculateTotals
                    (if s.ui.currentRoundIndex = 0 then
                      List.replicate s.config.numberOfPlayers.toNat 0
                    else
                      ((atIdx s.rounds (s.ui.currentRoundIndex - 1)).getD default).totalsAfterRound)
                    (calculateRoundScores round.bids
                      (listSet round.tricksTaken w (bidAt round.tricksTaken w + 1))) },
            ui := { s.ui with screen := .summary, currentLeaderIndex := w } } := by
      simp only [recordTrickWinner]
      rw [hr]
      simp only [if_neg hguard]
      rw [if_pos hcomp]
    rw [hrec]
    unfold undoGameAction
    dsimp only
    rw [if_neg (fun hcon => Screen.noConfusion hcon)]
    rw [if_neg (fun hcon => hcon.2 rfl)]
    rw [atIdx_listSet_self _ hr0 hrlt rfl]
    dsimp only
    rw [if_neg (fun hcon => Screen.noConfusion hcon.1)]
    rw [if_neg hnwemp, hnwlast]
    dsimp only
    rw [htrickRestore, hwinsRestore, hleadB]
    rw [if_pos rfl, if_pos rfl, if_pos rfl]
    rw [atIdx_listSet_ne s.rounds s.ui.currentRoundIndex (s.ui.currentRoundIndex - 1) _
      (by omega)]
    rw [← htot, ← hscores0]
    rw [listSet_listSet, hetaR, listSet_atIdx_self hr]
    rw [← hteq, ← hsc]
  · -- mid-round trick: no scoring happened
    have hrec : recordTrickWinner w s =
        { s with
            rounds := listSet s.rounds s.ui.currentRoundIndex
              { round with
                  tricksTaken := listSet round.tricksTaken w (bidAt round.tricksTaken w + 1),
                  trickWinners := round.trickWinners ++ [w] },
            ui := { s.ui with currentTrick := s.ui.currentTrick + 1,
                              currentLeaderIndex := w } } := by
      simp only [recordTrickWinner]
      rw [hr]
      simp only [if_neg hguard]
      rw [if_neg hcomp]
    have hmaxt : max 1 (s.ui.currentTrick + 1 - 1) = s.ui.currentTrick := by omega
    rw [hrec]
    unfold undoGameAction
    dsimp only
    rw [hsc]
    rw [if_neg (fun hcon => Screen.noConfusion hcon)]
    rw [if_neg (fun hcon => hcon.1 rfl)]
    rw [atIdx_listSet_self _ hr0 hrlt rfl]
    dsimp only
    rw [if_neg (fun hcon => hnwemp hcon.2)]
    rw [if_neg hnwemp, hnwlast]
    dsimp only
    rw [htrickRestore, hwinsRestore, hleadB]
    rw [if_neg (fun hcon => Screen.noConfusion hcon),
      if_neg (fun hcon => Screen.noConfusion hcon),
      if_neg (fun hcon => Screen.noConfusion hcon)]
    rw [hmaxt]
    rw [listSet_listSet, hetaR, listSet_atIdx_self hr]
    rw [← hsc]

/-- C5 counterexample: in the reachable state `sPlayR1` (round 1 of the
sample game, playing screen, about to record the final trick), recording
winner 0 and undoing does not restore the prior state bit-for-bit: the
undo resets round 1's `totalsAfterRound` to round 0's totals `[2, 10]`
although it was `[0, 0]` before the trick was recorded. -/
theorem record_undo_not_roundtrip_cex :
    Reachable sPlayR1 ∧
    sPlayR1.ui.screen = .playing ∧
    (0 : Int) ≤ 0 ∧ (0 : Int) < sPlayR1.config.numberOfPlayers ∧
    undoGameAction (recordTrickWinner 0 sPlayR1) ≠ sPlayR1 :=
  ⟨reachable_sPlayR1, by decide, by decide, by decide, by decide⟩

/-- C5 (amended): for every reachable game state on the playing screen
with a current round and every valid winner index `w`, recording the trick
and undoing restores the exact prior state bit-for-bit, PROVIDED that, in
case the trick completes the round, the round's `totalsAfterRound` field
already equals the previous round's totals (the zero vector for round 0).
This proviso holds automatically whenever the round has not been scored
before (e.g. the first pass through round 0), but fails on later rounds
whose stale `totalsAfterRound` is the zero vector while the undo recomputes
it from the previous round, so the unconditional claim is false. -/
theorem record_then_undo_roundtrip (s : GameState) (w : Int) (round : RoundState)
    (hreach : Reachable s)
    (hsc : s.ui.screen = .playing)
    (hr : atIdx s.rounds s.ui.currentRoundIndex = some round)
    (hw0 : 0 ≤ w) (hwn : w < s.config.numberOfPlayers)
    (htotals : round.handSize ≤ s.ui.currentTrick →
      round.totalsAfterRound = (if s.ui.currentRoundIndex = 0 then
        List.replicate s.config.numberOfPlayers.toNat 0
      else ((atIdx s.rounds (s.ui.currentRoundIndex - 1)).getD default).totalsAfterRound)) :
    undoGameAction (recordTrickWinner w s) = s := by
  obtain ⟨h1, h2, h3, h4, h5, h6, h7⟩ := Inv_reachable hreach
  obtain ⟨rd, hrd, hlen1, hlen2, hscz, hlead⟩ := h6 hsc
  have hrdeq : rd = round := Option.some.inj (hrd.symm.trans hr)
  subst hrdeq
  obtain ⟨ha, hb, hc, hd, he⟩ := h2 rd (atIdx_mem hr)
  have hwlen : w.toNat < rd.tricksTaken.length := by
    rw [ha]
    omega
  have hpos : 0 ≤ rd.tricksTaken.getD w.toNat 0 := by
    rw [he w.toNat hwlen]
    exact Int.natCast_nonneg _
  have ht1 : 1 ≤ s.ui.currentTrick := by omega
  exact undo_record_eq s w rd hsc hr hw0 hwn hwlen hpos ht1 hlead
    (fun hcm => ⟨by omega, hscz, htotals hcm⟩)

/-- Witness for C5 at the freshly begun round 0 of the sample game: the
first trick is recorded and undone, restoring the state exactly. -/
theorem record_then_undo_roundtrip_witness :
    undoGameAction (recordTrickWinner 0 sPlay0) = sPlay0 :=
  record_then_undo_roundtrip sPlay0 0 round0Fresh reachable_sPlay0 (by decide) (by decide)
    (by decide) (by decide) (by decide)

end Whist
